import Mathlib

/-!
# scrape-load-more-page: a shallow embedding of `scraper.js`

The development models the functions of `scraper.js`:

* `saveProductsToCSV` / `getUniquePricedProducts` (persistence, dedup, ranking),
* `fetchProductDetails` / `getProductDetails` (detail enrichment),
* `scrapeProductsFromPage` (the load-more loop).

JavaScript strings are lists of characters, JavaScript numbers are binary64
values kept as an exact multiple of the smallest subnormal `2^-1074`, the
browser is a script of responses, and console output and page actions are
recorded in a trace of effects.
-/

namespace Scraper

/-! ## JavaScript strings -/

/-- A JavaScript string, as its sequence of characters. -/
abbrev JSString := List Char

/-- The separator-split of `String.prototype.split` for a one-character
separator: the pieces between the occurrences, always at least one piece. -/
def splitOn (sep : Char) : JSString → List JSString
  | [] => [[]]
  | c :: cs =>
    if c = sep then [] :: splitOn sep cs
    else
      match splitOn sep cs with
      | [] => [[c]]
      | f :: fs => (c :: f) :: fs

/-- The join of `Array.prototype.join` for a one-character separator. -/
def joinWith (sep : Char) : List JSString → JSString
  | [] => []
  | [x] => x
  | x :: y :: rest => x ++ sep :: joinWith sep (y :: rest)

/-- The characters `String.prototype.trim` removes: ECMAScript WhiteSpace and
LineTerminator code points. -/
def isJSWhiteSpace (c : Char) : Bool :=
  c.toNat = 0x09 || c.toNat = 0x0A || c.toNat = 0x0B || c.toNat = 0x0C || c.toNat = 0x0D ||
  c.toNat = 0x20 || c.toNat = 0xA0 || c.toNat = 0x1680 ||
  (0x2000 ≤ c.toNat && c.toNat ≤ 0x200A) ||
  c.toNat = 0x2028 || c.toNat = 0x2029 || c.toNat = 0x202F || c.toNat = 0x205F ||
  c.toNat = 0x3000 || c.toNat = 0xFEFF

/-- The result of `s.trim()`: leading and trailing white space removed. -/
def trim (s : JSString) : JSString :=
  ((s.dropWhile isJSWhiteSpace).reverse.dropWhile isJSWhiteSpace).reverse

/-- The result of `item.replace(/"/g, "")`: every double quote removed. -/
def removeQuotes (s : JSString) : JSString :=
  s.filter (fun c => c != '"')

/-- The per-field clean-up of the read path: `item.replace(/"/g, "").trim()`. -/
def cleanField (s : JSString) : JSString :=
  trim (removeQuotes s)

/-- Membership in the character class `[0-9.-]`. -/
def isNumericChar (c : Char) : Bool :=
  c.isDigit || c == '.' || c == '-'

/-- The result of `price.replace(/[^0-9.-]+/g, "")`: every character that is
not a digit, a dot or a minus sign is removed. -/
def stripNonNumeric (s : JSString) : JSString :=
  s.filter isNumericChar

/-! ## JavaScript numbers -/

/-- A JavaScript number (IEEE 754 binary64). A finite value is a sign and a
magnitude counted in units of `2^-1074`, the smallest positive subnormal, so
`fin false 0` is `+0` and `fin true 0` is `-0`. -/
inductive JSNumber
  | nan : JSNumber
  | inf (neg : Bool) : JSNumber
  | fin (neg : Bool) (k : Nat) : JSNumber
  deriving DecidableEq, Repr

/-- Round half to even of the quotient `a / b`. -/
def roundHalfEven (a b : Nat) : Nat :=
  let q := a / b
  let r := a % b
  if 2 * r < b then q
  else if b < 2 * r then q + 1
  else if q % 2 = 0 then q else q + 1

/-- The number of halvings that bring `q` below `2^53`: the number of bits of
`q` beyond the 53 bits of a binary64 significand. The first argument bounds the
number of halvings and is taken to be `q` itself. -/
def excessBits : Nat → Nat → Nat
  | 0, _ => 0
  | fuel + 1, q => if q < 2 ^ 53 then 0 else excessBits fuel (q / 2) + 1

/-- Round the non-negative rational `a / b`, counted in units of `2^-1074`, to
the nearest binary64 magnitude (ties to even), with the sign `neg`. Below
`2^53` units the representable magnitudes are the integers; a quotient with `s`
bits beyond 53 lies in a binade whose magnitudes are the multiples of `2^s`; a
rounded magnitude of `2^1024` or more overflows to infinity. -/
def roundToDouble (neg : Bool) (a b : Nat) : JSNumber :=
  let q := a / b
  let s := excessBits q q
  let k := roundHalfEven a (b * 2 ^ s) * 2 ^ s
  if 2 ^ 2098 ≤ k then JSNumber.inf neg else JSNumber.fin neg k

/-- The signed magnitude of a finite number, in units of `2^-1074`. -/
def signedUnits (neg : Bool) (k : Nat) : Int :=
  if neg then -(k : Int) else (k : Int)

namespace JSNumber

/-- The JavaScript subtraction `x - y`. -/
def sub : JSNumber → JSNumber → JSNumber
  | nan, _ => nan
  | _, nan => nan
  | inf a, inf b => if a = b then nan else inf a
  | inf a, fin _ _ => inf a
  | fin _ _, inf b => inf (!b)
  | fin s k, fin t l =>
    let d := signedUnits s k - signedUnits t l
    if d = 0 then fin (s && !t) 0
    else roundToDouble (decide (d < 0)) d.natAbs 1

/-- The JavaScript comparison `x < y`. -/
def lt : JSNumber → JSNumber → Bool
  | nan, _ => false
  | _, nan => false
  | inf a, inf b => a && !b
  | inf a, fin _ _ => a
  | fin _ _, inf b => !b
  | fin s k, fin t l => decide (signedUnits s k < signedUnits t l)

/-- The JavaScript comparison `x > y`. -/
def gt (x y : JSNumber) : Bool := lt y x

/-- The JavaScript comparison `x >= y`: false when either side is `NaN`. -/
def ge : JSNumber → JSNumber → Bool
  | nan, _ => false
  | _, nan => false
  | x, y => !(lt x y)

/-- The SameValueZero comparison used by `Set.prototype.has`: `NaN` equals
itself and `+0` equals `-0`. -/
def sameValueZero : JSNumber → JSNumber → Bool
  | nan, nan => true
  | inf a, inf b => a == b
  | fin s k, fin t l => decide (signedUnits s k = signedUnits t l)
  | _, _ => false

/-- Whether the number is `NaN`. -/
def isNaN : JSNumber → Bool
  | nan => true
  | _ => false

end JSNumber

/-- The value of a string of decimal digits. -/
def digitsValue (ds : List Char) : Nat :=
  ds.foldl (fun acc c => 10 * acc + (c.toNat - '0'.toNat)) 0

/-- The digits and fraction after the optional sign of a `StrDecimalLiteral`:
`DecimalDigits`, `DecimalDigits . DecimalDigits?` or `. DecimalDigits`, as the
pair of the integer digits and the fraction digits of the longest such prefix;
`none` when no prefix is a literal. -/
def scanDecimal (s : JSString) : Option (List Char × List Char) :=
  let intDigits := s.takeWhile Char.isDigit
  let rest := s.dropWhile Char.isDigit
  let fracDigits :=
    match rest with
    | '.' :: more => more.takeWhile Char.isDigit
    | _ => []
  if intDigits.isEmpty && fracDigits.isEmpty then none else some (intDigits, fracDigits)

/-- The result of `parseFloat` on a string over the characters `0-9`, `.` and
`-` (the only ones left by `stripNonNumeric`, so there is no white space, no
`+`, no exponent and no `Infinity` to recognise): the longest prefix that is a
decimal literal, rounded to the nearest binary64 value, or `NaN` when no prefix
is a literal. A literal `-0` or a negative value that rounds to zero is `-0`. -/
def parseFloat (s : JSString) : JSNumber :=
  let neg := s.head? == some '-'
  let body := if neg then s.drop 1 else s
  match scanDecimal body with
  | none => JSNumber.nan
  | some (intDigits, fracDigits) =>
    roundToDouble neg (digitsValue (intDigits ++ fracDigits) * 2 ^ 1074) (10 ^ fracDigits.length)

/-! ## Persistence: `saveProductsToCSV` and `getUniquePricedProducts` -/

/-- A scraped listing: the four strings harvested from one `.product-item`. -/
structure ListingRecord where
  name : JSString
  price : JSString
  image : JSString
  link : JSString
  deriving DecidableEq, Repr

/-- A product rebuilt from a persisted row. `name`, `image` and `link` are
`none` when the destructuring found no such field (`undefined`). -/
structure Product where
  name : Option JSString
  price : JSNumber
  image : Option JSString
  link : Option JSString
  deriving DecidableEq, Repr

/-- The faults the model distinguishes. -/
inductive Fault
  | typeError : Fault
  | navigation : Fault
  | query : Fault
  | click : Fault
  deriving DecidableEq, Repr

/-- The header line written for `fields = ["name", "price", "image", "link"]`. -/
def csvHeader : JSString := "name,price,image,link".toList

/-- Modelled from the spec: the `Parser` of the `json2csv` package is not part
of the sources. With `fields` as in `saveProductsToCSV` and `quote: ""` it
writes the header line `name,price,image,link` and then one line per record,
the four field texts joined by commas without quoting or escaping, the lines
joined by a line feed with no line feed after the last one. -/
def parserParse (products : List ListingRecord) : JSString :=
  joinWith '\n'
    (csvHeader :: products.map (fun p => joinWith ',' [p.name, p.price, p.image, p.link]))

/-- The text `saveProductsToCSV(products)` writes to `products.csv`. -/
def saveProductsToCSV (products : List ListingRecord) : JSString :=
  parserParse products

/-- The lines of the file after the header: `csvData.split("\n").slice(1)`. -/
def dataLines (csvData : JSString) : List JSString :=
  (splitOn '\n' csvData).drop 1

/-- The cleaned fields of one line:
`line.split(",").map((item) => item.replace(/"/g, "").trim())`. -/
def lineFields (line : JSString) : List JSString :=
  (splitOn ',' line).map cleanField

/-- The callback of the `map` over the lines: destructure the first four fields
and parse the price. `price.replace` on an absent second field throws a
`TypeError`; absent third and fourth fields stay `undefined`. -/
def parseLine (line : JSString) : Except Fault Product :=
  let fields := lineFields line
  match fields.get? 1 with
  | none => Except.error Fault.typeError
  | some price =>
    Except.ok
      { name := fields.get? 0
        price := parseFloat (stripNonNumeric price)
        image := fields.get? 2
        link := fields.get? 3 }

/-- The `map` of `parseLine` over the lines: the products in order, or the
fault of the first line whose callback throws. -/
def parseLines : List JSString → Except Fault (List Product)
  | [] => Except.ok []
  | line :: rest =>
    match parseLine line with
    | Except.error e => Except.error e
    | Except.ok product =>
      match parseLines rest with
      | Except.error e => Except.error e
      | Except.ok products => Except.ok (product :: products)

/-- The array `products` of `getUniquePricedProducts`. -/
def parseProducts (csvData : JSString) : Except Fault (List Product) :=
  parseLines (dataLines csvData)

/-- The state of the `forEach` of `getUniquePricedProducts`: the prices in the
`Set` and the products pushed so far, both in insertion order. -/
structure DedupState where
  uniquePrices : List JSNumber
  uniqueProducts : List Product

/-- The result of `uniquePrices.has(price)`. -/
def setHas (uniquePrices : List JSNumber) (price : JSNumber) : Bool :=
  uniquePrices.any (fun q => JSNumber.sameValueZero q price)

/-- One call of the `forEach` callback. -/
def dedupStep (st : DedupState) (product : Product) : DedupState :=
  if !(setHas st.uniquePrices product.price) then
    { uniquePrices := st.uniquePrices ++ [product.price]
      uniqueProducts := st.uniqueProducts ++ [product] }
  else st

/-- The array `uniqueProducts` after the `forEach` over `products`. -/
def dedupProducts (products : List Product) : List Product :=
  (products.foldl dedupStep { uniquePrices := [], uniqueProducts := [] }).uniqueProducts

/-- The comparator `(a, b) => b.price - a.price`. -/
def comparePrice (a b : Product) : JSNumber :=
  JSNumber.sub b.price a.price

/-- The comparison `Array.prototype.sort` makes with the comparator: a `NaN`
result counts as `+0`. -/
def sortCompare (a b : Product) : JSNumber :=
  let v := comparePrice a b
  if v.isNaN then JSNumber.fin false 0 else v

/-- Insert `x`, which precedes every element of `sorted` in the original order,
into `sorted`: it goes before the first element it does not compare greater
than. -/
def sortInsert (x : Product) : List Product → List Product
  | [] => [x]
  | y :: ys =>
    if JSNumber.gt (sortCompare x y) (JSNumber.fin false 0) then y :: sortInsert x ys
    else x :: y :: ys

/-- The result of `uniqueProducts.sort((a, b) => b.price - a.price)`, as a
stable insertion sort. `Array.prototype.sort` is stable, so for a comparator
that is consistent on the elements the result is the same for every
implementation (`sortByPriceDesc_unique`); for an inconsistent one (a `NaN`
price among two or more different numbers) ECMAScript leaves the order to the
implementation, and the order computed here need not be the one of a given
engine. -/
def sortByPriceDesc : List Product → List Product
  | [] => []
  | x :: xs => sortInsert x (sortByPriceDesc xs)

/-- The value of `getUniquePricedProducts(noOfProducts)` when `products.csv`
holds `csvData`: parse, deduplicate by price, sort by descending price and
take the first `noOfProducts`. -/
def getUniquePricedProducts (csvData : JSString) (noOfProducts : Nat) :
    Except Fault (List Product) :=
  match parseProducts csvData with
  | Except.error e => Except.error e
  | Except.ok products =>
    Except.ok ((sortByPriceDesc (dedupProducts products)).take noOfProducts)

/-! ## Browser effects -/

/-- The observable actions of a run: page life cycle, navigation, clicks, the
settle delay and console output. An action is recorded once it has succeeded. -/
inductive Effect
  | newPage : Effect
  | goto (url : Option JSString) : Effect
  | click : Effect
  | delay (ms : Nat) : Effect
  | logInitial (products : List ListingRecord) : Effect
  | logNew (products : List ListingRecord) : Effect
  | logNotClickable : Effect
  | logError (fault : Fault) : Effect
  | close : Effect
  deriving DecidableEq, Repr

/-- The sentinel `"N/A"`. -/
def notAvailable : JSString := "N/A".toList

/-- The value of `element?.text || "N/A"`, where `text` is `none` when the
selector matched no element: an absent element and an empty text both give the
sentinel. -/
def orNA (text : Option JSString) : JSString :=
  match text with
  | none => notAvailable
  | some t => if t.isEmpty then notAvailable else t

/-! ## Detail enrichment: `fetchProductDetails` and `getProductDetails` -/

/-- What the five selectors of the detail projection find in a product page:
the `innerText` of the first matching element, `none` when nothing matches. -/
structure DetailDocument where
  productTitle : Option JSString
  price : Option JSString
  shortDescription : Option JSString
  sku : Option JSString
  postedIn : Option JSString
  deriving DecidableEq, Repr

/-- The object returned by the detail projection. -/
structure DetailRecord where
  title : JSString
  price : JSString
  description : JSString
  sku : JSString
  category : JSString
  deriving DecidableEq, Repr

/-- The callback passed to `productPage.evaluate` in `fetchProductDetails`. -/
def detailProjection (doc : DetailDocument) : DetailRecord :=
  { title := orNA doc.productTitle
    price := orNA doc.price
    description := orNA doc.shortDescription
    sku := orNA doc.sku
    category := orNA doc.postedIn }

/-- The browser as seen by the detail fetch: for each link (possibly
`undefined`), the outcome of navigating a fresh page to it and the document
the projection then runs against, or the fault either step raises. -/
structure Browser where
  goto : Option JSString → Except Fault Unit
  evaluate : Option JSString → Except Fault DetailDocument

/-- The outcome and the actions of `fetchProductDetails(browser, productLink)`:
open a page, navigate, run the projection, close the page, return the record.
There is no `try`, so a fault of `goto` or `evaluate` leaves the function at
once. -/
def fetchProductDetails (browser : Browser) (productLink : Option JSString) :
    Except Fault DetailRecord × List Effect :=
  match browser.goto productLink with
  | Except.error f => (Except.error f, [Effect.newPage])
  | Except.ok _ =>
    match browser.evaluate productLink with
    | Except.error f => (Except.error f, [Effect.newPage, Effect.goto productLink])
    | Except.ok doc =>
      (Except.ok (detailProjection doc),
        [Effect.newPage, Effect.goto productLink, Effect.close])

/-- The settling of the promises given to `Promise.all`, in their order of
completion: a fulfilled promise stores its value at its own index and
decrements the count of remaining elements, the aggregate is fulfilled with
the stored values when the count reaches zero, and the first rejection rejects
the aggregate. `none` is an aggregate that is still pending. -/
def promiseAllSettle {α : Type} (outcomes : List (Except Fault α)) :
    List Nat → List (Option α) → Nat → Option (Except Fault (List α))
  | [], _, _ => none
  | i :: later, values, remaining =>
    match outcomes.get? i with
    | none => promiseAllSettle outcomes later values remaining
    | some (Except.error f) => some (Except.error f)
    | some (Except.ok v) =>
      if remaining - 1 = 0 then some (Except.ok ((values.set i (some v)).filterMap id))
      else promiseAllSettle outcomes later (values.set i (some v)) (remaining - 1)

/-- The outcome of `Promise.all(promises)` when the promises settle in the
order `completion` (a list of indices into `promises`). An empty input is
fulfilled at once with the empty array. -/
def promiseAll {α : Type} (completion : List Nat) (outcomes : List (Except Fault α)) :
    Option (Except Fault (List α)) :=
  if outcomes.isEmpty then some (Except.ok [])
  else promiseAllSettle outcomes completion (List.replicate outcomes.length none) outcomes.length

/-- The outcome of `getProductDetails(browser, products)` when the fetches
complete in the order `completion`: one fetch per element of `products`,
whatever their number. -/
def getProductDetails (browser : Browser) (completion : List Nat) (products : List Product) :
    Option (Except Fault (List DetailRecord)) :=
  promiseAll completion (products.map (fun product => (fetchProductDetails browser product.link).1))

/-! ## Listing extraction: `scrapeProductsFromPage` -/

/-- What the selectors inside one `.product-item` element find: the text, `src`
or `href` of the first matching descendant, `none` when nothing matches. -/
structure ProductItem where
  name : Option JSString
  price : Option JSString
  image : Option JSString
  link : Option JSString
  deriving DecidableEq, Repr

/-- The properties of the load-more button read by the `$eval` callback. -/
structure Button where
  offsetWidth : Nat
  offsetHeight : Nat
  disabled : Bool
  deriving DecidableEq, Repr

/-- The callback of `page.$eval(loadMoreButtonSelector, ...)`. -/
def isClickable (button : Button) : Bool :=
  decide (button.offsetWidth > 0) && decide (button.offsetHeight > 0) && !button.disabled

/-- The listing page as a script of responses. `evaluate i` is the outcome of
the `i`-th harvest query (`0` is the initial one): the `.product-item` elements
then in the document. `find i`, `evalButton i` and `click i` are the outcomes
of `page.$`, `page.$eval` and `click()` at reveal attempt `i` (counted from
`0`); `find i` is whether a handle was found. -/
structure ListingPage where
  goto : Except Fault Unit
  evaluate : Nat → Except Fault (List ProductItem)
  find : Nat → Except Fault Bool
  evalButton : Nat → Except Fault Button
  click : Nat → Except Fault Unit

/-- The projection run by `scrapeVisibleProducts` on the `.product-item`
elements of the document. -/
def scrapeVisibleProducts (items : List ProductItem) : List ListingRecord :=
  items.map (fun product =>
    { name := orNA product.name
      price := orNA product.price
      image := orNA product.image
      link := orNA product.link })

/-- The address `scrapeProductsFromPage` navigates to. -/
def buttonClickUrl : JSString := "https://www.scrapingcourse.com/button-click".toList

/-- The `while (clickCount < n)` loop, with `remaining = n - clickCount`
iterations still allowed. Returns the value of `allProducts` at the exit of the
loop, or the fault that left it, and the actions of the loop. -/
def revealLoop (page : ListingPage) :
    Nat → Nat → List ListingRecord → Except Fault (List ListingRecord) × List Effect
  | 0, _, allProducts => (Except.ok allProducts, [])
  | remaining + 1, clickCount, allProducts =>
    match page.find clickCount with
    | Except.error f => (Except.error f, [])
    | Except.ok false => (Except.ok allProducts, [])
    | Except.ok true =>
      match page.evalButton clickCount with
      | Except.error f => (Except.error f, [])
      | Except.ok button =>
        if isClickable button then
          match page.click clickCount with
          | Except.error f => (Except.error f, [])
          | Except.ok _ =>
            match page.evaluate (clickCount + 1) with
            | Except.error f => (Except.error f, [Effect.click, Effect.delay 2000])
            | Except.ok items =>
              let newProducts := scrapeVisibleProducts items
              let rest := revealLoop page remaining (clickCount + 1) (allProducts ++ newProducts)
              (rest.1,
                Effect.click :: Effect.delay 2000 :: Effect.logNew newProducts :: rest.2)
        else (Except.ok allProducts, [Effect.logNotClickable])

/-- The body of the `try` block of `scrapeProductsFromPage`. -/
def scrapeBody (page : ListingPage) : Except Fault (List ListingRecord) × List Effect :=
  match page.goto with
  | Except.error f => (Except.error f, [])
  | Except.ok _ =>
    match page.evaluate 0 with
    | Except.error f => (Except.error f, [Effect.goto (some buttonClickUrl)])
    | Except.ok items =>
      let allProducts := scrapeVisibleProducts items
      let rest := revealLoop page 4 0 allProducts
      (rest.1, Effect.goto (some buttonClickUrl) :: Effect.logInitial allProducts :: rest.2)

/-- The value and the actions of `scrapeProductsFromPage(browser)`. The `catch`
block only logs, so after a fault the function returns `undefined` (`none`);
the `finally` block closes the page on both paths. -/
def scrapeProductsFromPage (page : ListingPage) : Option (List ListingRecord) × List Effect :=
  match scrapeBody page with
  | (Except.ok allProducts, actions) =>
    (some allProducts, Effect.newPage :: actions ++ [Effect.close])
  | (Except.error f, actions) =>
    (none, Effect.newPage :: actions ++ [Effect.logError f, Effect.close])

/-! ## Notions used to state the properties -/

/-- The numeric value of a price, with `-0` identified with `+0`: two numbers
have the same value exactly when `Set.prototype.has` treats them as equal. -/
def JSNumber.value : JSNumber → JSNumber
  | JSNumber.fin _ 0 => JSNumber.fin false 0
  | x => x

/-- The set of distinct parsed prices of a sequence of products. -/
def distinctPrices (products : List Product) : Finset JSNumber :=
  (products.map (fun p => p.price.value)).toFinset

/-- Whether the product has the price `v`, as `Set.prototype.has` compares. -/
def hasPrice (v : JSNumber) (p : Product) : Bool :=
  JSNumber.sameValueZero p.price v

deriving instance DecidableEq for Except

/-! ## Example inputs -/

/-- The persisted file of the end-to-end example: rows `"A",100`, `"B",150`
and `"C",100`. -/
def exampleCsv : JSString :=
  "name,price,image,link\n\"A\",100,img1,link1\n\"B\",150,img2,link2\n\"C\",100,img3,link3".toList

/-- The product read from the row `"A",100,img1,link1`. -/
def exampleA : Product :=
  { name := some "A".toList, price := JSNumber.fin false (100 * 2 ^ 1074),
    image := some "img1".toList, link := some "link1".toList }

/-- The product read from the row `"B",150,img2,link2`. -/
def exampleB : Product :=
  { name := some "B".toList, price := JSNumber.fin false (150 * 2 ^ 1074),
    image := some "img2".toList, link := some "link2".toList }

/-- A file with two rows of the same price `$10` and different names. -/
def samePriceCsv : JSString :=
  "name,price,image,link\nA,$10,imgA,linkA\nB,$10,imgB,linkB".toList

/-- The product read from the row `A,$10,imgA,linkA`. -/
def samePriceA : Product :=
  { name := some "A".toList, price := JSNumber.fin false (10 * 2 ^ 1074),
    image := some "imgA".toList, link := some "linkA".toList }

/-- A file whose first row has the price text `N/A`, the default the listing
harvest writes for a missing price element. -/
def missingPriceCsv : JSString :=
  "name,price,image,link\nA,N/A,imgA,linkA\nB,5,imgB,linkB".toList

/-- The product read from the row `A,N/A,imgA,linkA`: its price is `NaN`. -/
def missingPriceA : Product :=
  { name := some "A".toList, price := JSNumber.nan,
    image := some "imgA".toList, link := some "linkA".toList }

/-- The product read from the row `B,5,imgB,linkB`. -/
def missingPriceB : Product :=
  { name := some "B".toList, price := JSNumber.fin false (5 * 2 ^ 1074),
    image := some "imgB".toList, link := some "linkB".toList }

/-- A file whose only data row has two fields. -/
def shortRowCsv : JSString :=
  "name,price,image,link\nA,10".toList

/-- The product read from the row `A,10`: image and link are `undefined`. -/
def shortRowA : Product :=
  { name := some "A".toList, price := JSNumber.fin false (10 * 2 ^ 1074),
    image := none, link := none }

/-- A file that ends with a line feed: its last data row is the empty line. -/
def trailingNewlineCsv : JSString :=
  "name,price,image,link\nA,10,imgA,linkA\n".toList

/-- Whether a field text is free of the two separators of the persisted
format, the comma and the line feed. -/
def isPlainField (field : JSString) : Bool :=
  !field.contains ',' && !field.contains '\n'

/-- Whether the four fields of a record are free of commas and line feeds. -/
def isPlainRecord (r : ListingRecord) : Bool :=
  isPlainField r.name && isPlainField r.price && isPlainField r.image && isPlainField r.link

/-- The product the read path is expected to rebuild from a record: name, image
and link with double quotes removed and surrounding white space trimmed, and
the price parsed from the price text. -/
def productOfRecord (r : ListingRecord) : Product :=
  { name := some (cleanField r.name)
    price := parseFloat (stripNonNumeric (cleanField r.price))
    image := some (cleanField r.image)
    link := some (cleanField r.link) }

/-- A record whose name contains a comma. -/
def commaRecord : ListingRecord :=
  { name := "Shirt, blue".toList, price := "$10".toList,
    image := "img".toList, link := "link".toList }

/-- The product read back from the row written for `commaRecord`: the name is
cut at the comma and the later fields are shifted by one. -/
def commaProduct : Product :=
  { name := some "Shirt".toList, price := JSNumber.nan,
    image := some "$10".toList, link := some "img".toList }

/-- A record with a quoted name and a currency-formatted price. -/
def quotedRecord : ListingRecord :=
  { name := "\"Mug\" ".toList, price := "$12.50".toList,
    image := "img".toList, link := "link".toList }

/-- Whether the load-more control is present and interactable at reveal
attempt `i`: a handle is found and the `$eval` callback returns true. -/
def interactableAt (page : ListingPage) (i : Nat) : Bool :=
  match page.find i, page.evalButton i with
  | Except.ok true, Except.ok button => isClickable button
  | _, _ => false

/-- A page none of whose operations faults: navigation, every harvest query,
every lookup of the button, the `$eval` on a button that was found, and every
click succeed. -/
def FaultFree (page : ListingPage) : Prop :=
  page.goto = Except.ok () ∧
  (∀ i, ∃ items, page.evaluate i = Except.ok items) ∧
  (∀ i, ∃ found, page.find i = Except.ok found) ∧
  (∀ i, page.find i = Except.ok true → ∃ button, page.evalButton i = Except.ok button) ∧
  (∀ i, page.click i = Except.ok ())

/-- The records of the `i`-th harvest of the page (`0` is the initial one). -/
def harvestAt (page : ListingPage) (i : Nat) : List ListingRecord :=
  match page.evaluate i with
  | Except.ok items => scrapeVisibleProducts items
  | Except.error _ => []

/-- The harvest an action logs, if it is the log of a harvest. -/
def loggedHarvest : Effect → Option (List ListingRecord)
  | Effect.logInitial products => some products
  | Effect.logNew products => some products
  | _ => none

/-- One item with every element present, named by a letter. -/
def exampleItem (letter : Char) : ProductItem :=
  { name := some [letter], price := some "$10".toList,
    image := some "img".toList, link := some "link".toList }

/-- A page whose load-more button is interactable at the first attempt and
disabled at the second; harvest `i` shows one item named by the `i`-th letter. -/
def disabledAtSecondPage : ListingPage :=
  { goto := Except.ok ()
    evaluate := fun i => Except.ok [exampleItem (Char.ofNat (65 + i))]
    find := fun _ => Except.ok true
    evalButton := fun i =>
      Except.ok { offsetWidth := 120, offsetHeight := 40, disabled := decide (i = 1) }
    click := fun _ => Except.ok () }

/-- A page whose load-more button is always interactable. -/
def alwaysInteractablePage : ListingPage :=
  { goto := Except.ok ()
    evaluate := fun i => Except.ok [exampleItem (Char.ofNat (65 + i))]
    find := fun _ => Except.ok true
    evalButton := fun _ =>
      Except.ok { offsetWidth := 120, offsetHeight := 40, disabled := false }
    click := fun _ => Except.ok () }

/-- A page whose initial harvest succeeds and whose first lookup of the
load-more button faults. -/
def faultAfterHarvestPage : ListingPage :=
  { goto := Except.ok ()
    evaluate := fun i => Except.ok [exampleItem (Char.ofNat (65 + i))]
    find := fun _ => Except.error Fault.query
    evalButton := fun _ => Except.error Fault.query
    click := fun _ => Except.ok () }

/-- The actions of the `try` block are neither the log of the `catch` block
nor the close of the `finally` block. -/
def isBodyEffect : Effect → Bool
  | Effect.logError _ => false
  | Effect.close => false
  | Effect.newPage => false
  | _ => true

/-- How a field of the detail record relates to the element it is read from:
the sentinel when the element is absent or its text is empty, the text of the
element otherwise. -/
def FieldFilled (element : Option JSString) (field : JSString) : Prop :=
  (element = none → field = notAvailable) ∧
  (element = some [] → field = notAvailable) ∧
  (∀ text, text ≠ [] → element = some text → field = text)

/-- A product page with every element present except the short description. -/
def missingDescriptionDoc : DetailDocument :=
  { productTitle := some "Mug".toList, price := some "$12.50".toList,
    shortDescription := none, sku := some "MUG-1".toList,
    postedIn := some "Category: Kitchen".toList }

/-- A product page whose SKU element is present with an empty text. -/
def emptySkuDoc : DetailDocument :=
  { productTitle := some "Mug".toList, price := some "$12.50".toList,
    shortDescription := some "A mug.".toList, sku := some [],
    postedIn := some "Category: Kitchen".toList }

/-- A browser whose navigation faults for every link. -/
def unreachableBrowser : Browser :=
  { goto := fun _ => Except.error Fault.navigation
    evaluate := fun _ => Except.ok missingDescriptionDoc }

/-- A browser whose navigation succeeds and whose projection faults. -/
def brokenQueryBrowser : Browser :=
  { goto := fun _ => Except.ok ()
    evaluate := fun _ => Except.error Fault.query }

/-- A browser that serves, for every link, a page titled by the link. -/
def echoBrowser : Browser :=
  { goto := fun _ => Except.ok ()
    evaluate := fun link =>
      Except.ok { productTitle := link, price := none, shortDescription := none,
                  sku := none, postedIn := none } }

/-- The document `echoBrowser` serves for a link. -/
def echoDoc (link : Option JSString) : DetailDocument :=
  { productTitle := link, price := none, shortDescription := none, sku := none, postedIn := none }

/-- A product with the given link and no other data. -/
def linkedProduct (link : String) : Product :=
  { name := none, price := JSNumber.nan, image := none, link := some link.toList }

/-- The prices in the `Set` are those of the products pushed so far. -/
def DedupState.Consistent (st : DedupState) : Prop :=
  st.uniquePrices = st.uniqueProducts.map (fun p => p.price)

/-- Reveal attempt `i` runs to its end: the button is present and
interactable, the click succeeds and the harvest that follows succeeds. -/
def completesAt (page : ListingPage) (i : Nat) : Prop :=
  interactableAt page i = true ∧ page.click i = Except.ok () ∧
    ∃ items, page.evaluate (i + 1) = Except.ok items

/-- Reveal attempt `i` raises the fault `f`: in the lookup of the button, in
the `$eval` on a button that was found, in the click of an interactable
button, or in the harvest query after a successful click. -/
def faultsAt (page : ListingPage) (i : Nat) (f : Fault) : Prop :=
  page.find i = Except.error f ∨
  (page.find i = Except.ok true ∧ page.evalButton i = Except.error f) ∨
  (interactableAt page i = true ∧ page.click i = Except.error f) ∨
  (interactableAt page i = true ∧ page.click i = Except.ok () ∧
    page.evaluate (i + 1) = Except.error f)

/-- The fault `f` occurs inside `scrapeProductsFromPage`: in the navigation,
in the initial harvest query, or at one of the four reveal attempts after all
earlier attempts ran to their end. -/
def FaultOccurs (page : ListingPage) (f : Fault) : Prop :=
  page.goto = Except.error f ∨
  (page.goto = Except.ok () ∧ page.evaluate 0 = Except.error f) ∨
  (page.goto = Except.ok () ∧ (∃ items, page.evaluate 0 = Except.ok items) ∧
    ∃ c, c < 4 ∧ (∀ i, i < c → completesAt page i) ∧ faultsAt page c f)

/-- A page whose initial harvest succeeds and whose first click faults. -/
def clickFaultPage : ListingPage :=
  { goto := Except.ok ()
    evaluate := fun i => Except.ok [exampleItem (Char.ofNat (65 + i))]
    find := fun _ => Except.ok true
    evalButton := fun _ =>
      Except.ok { offsetWidth := 120, offsetHeight := 40, disabled := false }
    click := fun _ => Except.error Fault.click }

/-- A page whose first two harvests succeed and whose third harvest query,
after the second click, faults. -/
def harvestFaultPage : ListingPage :=
  { goto := Except.ok ()
    evaluate := fun i =>
      if i = 2 then Except.error Fault.query
      else Except.ok [exampleItem (Char.ofNat (65 + i))]
    find := fun _ => Except.ok true
    evalButton := fun _ =>
      Except.ok { offsetWidth := 120, offsetHeight := 40, disabled := false }
    click := fun _ => Except.ok () }

/-- A record whose name holds a line feed. -/
def lineFeedRecord : ListingRecord :=
  { name := "Fancy\nMug".toList, price := "$10".toList,
    image := "img".toList, link := "link".toList }

/-! ## Numbers: the sign of the comparator and the order of prices -/

theorem roundHalfEven_ge (a b : Nat) : a / b ≤ roundHalfEven a b := by
  unfold roundHalfEven
  simp only
  split_ifs <;> omega

theorem excessBits_pow_le (fuel q : Nat) (hq : 0 < q) : 2 ^ excessBits fuel q ≤ q := by
  induction fuel generalizing q with
  | zero => simpa [excessBits] using hq
  | succ fuel ih =>
    unfold excessBits
    split_ifs with h
    · simpa using hq
    · have h2 : 0 < q / 2 := by
        have : 2 ≤ q := by
          have : (2 : Nat) ≤ 2 ^ 53 := by norm_num
          omega
        omega
      have := ih (q / 2) h2
      rw [pow_succ]
      omega

theorem roundToDouble_pos (neg : Bool) (a : Nat) (ha : 0 < a) :
    roundToDouble neg a 1 = JSNumber.inf neg ∨
      ∃ k, 0 < k ∧ roundToDouble neg a 1 = JSNumber.fin neg k := by
  unfold roundToDouble
  simp only [Nat.div_one, one_mul]
  split_ifs with h1
  · left; rfl
  · right
    refine ⟨_, ?_, rfl⟩
    have hle : 2 ^ excessBits a a ≤ a := excessBits_pow_le a a ha
    have h3 := roundHalfEven_ge a (2 ^ excessBits a a)
    have h4 : 1 ≤ a / 2 ^ excessBits a a := by
      rw [Nat.one_le_div_iff (by positivity)]
      exact hle
    have h5 : 0 < 2 ^ excessBits a a := by positivity
    exact Nat.mul_pos (by omega) h5

theorem lt_zero_fin (neg : Bool) (k : Nat) (hk : 0 < k) :
    JSNumber.lt (JSNumber.fin false 0) (JSNumber.fin neg k) = !neg := by
  cases neg
  · simp [JSNumber.lt, signedUnits]; omega
  · simp [JSNumber.lt, signedUnits]

theorem lt_zero_inf (neg : Bool) :
    JSNumber.lt (JSNumber.fin false 0) (JSNumber.inf neg) = !neg := by
  simp [JSNumber.lt]

theorem lt_fin_fin (s t : Bool) (k l : Nat) :
    JSNumber.lt (JSNumber.fin s k) (JSNumber.fin t l) = decide (signedUnits s k < signedUnits t l) :=
  rfl

theorem sub_fin_fin_gt (s t : Bool) (k l : Nat) :
    JSNumber.lt (JSNumber.fin false 0)
        (if (JSNumber.sub (JSNumber.fin t l) (JSNumber.fin s k)).isNaN then JSNumber.fin false 0
          else JSNumber.sub (JSNumber.fin t l) (JSNumber.fin s k)) =
      decide (signedUnits s k < signedUnits t l) := by
  simp only [JSNumber.sub]
  by_cases hd : signedUnits t l - signedUnits s k = 0
  · rw [if_pos hd]
    have h1 : ¬ (signedUnits s k < signedUnits t l) := by omega
    simp only [JSNumber.isNaN, Bool.false_eq_true, if_false, lt_fin_fin, decide_eq_decide]
    have h2 : signedUnits (t && !s) 0 = 0 := by cases (t && !s) <;> rfl
    have h3 : signedUnits false 0 = 0 := rfl
    rw [h2, h3]
    omega
  · rw [if_neg hd]
    have hpos : 0 < (signedUnits t l - signedUnits s k).natAbs := by omega
    rcases roundToDouble_pos (decide (signedUnits t l - signedUnits s k < 0)) _ hpos with
      h | ⟨k', hk', h⟩
    · rw [h]
      simp only [JSNumber.isNaN, Bool.false_eq_true, if_false, lt_zero_inf]
      by_cases hlt : signedUnits t l - signedUnits s k < 0
      · have h1 : ¬ (signedUnits s k < signedUnits t l) := by omega
        simp [hlt, h1]
      · have h1 : signedUnits s k < signedUnits t l := by omega
        simp [hlt, h1]
    · rw [h]
      simp only [JSNumber.isNaN, Bool.false_eq_true, if_false, lt_zero_fin _ _ hk']
      by_cases hlt : signedUnits t l - signedUnits s k < 0
      · have h1 : ¬ (signedUnits s k < signedUnits t l) := by omega
        simp [hlt, h1]
      · have h1 : signedUnits s k < signedUnits t l := by omega
        simp [hlt, h1]

theorem sortCompare_gt_zero (x y : Product) :
    JSNumber.gt (sortCompare x y) (JSNumber.fin false 0) = JSNumber.lt x.price y.price := by
  unfold sortCompare comparePrice JSNumber.gt
  cases hx : x.price with
  | nan => cases hy : y.price <;> simp [JSNumber.sub, JSNumber.isNaN, JSNumber.lt, signedUnits]
  | inf a =>
    cases hy : y.price with
    | nan => simp [JSNumber.sub, JSNumber.isNaN, JSNumber.lt, signedUnits]
    | inf b =>
      cases a <;> cases b <;> simp [JSNumber.sub, JSNumber.isNaN, JSNumber.lt, signedUnits]
    | fin t l =>
      cases a <;> simp [JSNumber.sub, JSNumber.isNaN, JSNumber.lt, signedUnits]
  | fin s k =>
    cases hy : y.price with
    | nan => simp [JSNumber.sub, JSNumber.isNaN, JSNumber.lt, signedUnits]
    | inf b =>
      cases b <;> simp [JSNumber.sub, JSNumber.isNaN, JSNumber.lt, signedUnits]
    | fin t l =>
      simp only
      rw [sub_fin_fin_gt, lt_fin_fin]

theorem lt_trans_js (a b c : JSNumber) (h1 : JSNumber.lt a b = true) (h2 : JSNumber.lt b c = true) :
    JSNumber.lt a c = true := by
  cases a <;> cases b <;> cases c <;> simp_all [JSNumber.lt]
  omega

theorem lt_asymm_js (a b : JSNumber) (h1 : JSNumber.lt a b = true) : JSNumber.lt b a = false := by
  cases a <;> cases b <;> simp_all [JSNumber.lt]
  omega

theorem lt_total_js (a b : JSNumber) (ha : a ≠ JSNumber.nan) (hb : b ≠ JSNumber.nan)
    (hab : JSNumber.sameValueZero a b = false) :
    JSNumber.lt a b = true ∨ JSNumber.lt b a = true := by
  cases a with
  | nan => exact absurd rfl ha
  | inf s =>
    cases b with
    | nan => exact absurd rfl hb
    | inf t => cases s <;> cases t <;> simp_all [JSNumber.lt, JSNumber.sameValueZero]
    | fin t l => cases s <;> simp [JSNumber.lt]
  | fin s k =>
    cases b with
    | nan => exact absurd rfl hb
    | inf t => cases t <;> simp [JSNumber.lt]
    | fin t l =>
      simp only [JSNumber.lt, JSNumber.sameValueZero, decide_eq_false_iff_not, decide_eq_true_eq] at hab ⊢
      omega

theorem ge_of_lt (a b : JSNumber) (h : JSNumber.lt b a = true) : JSNumber.ge a b = true := by
  have h2 := lt_asymm_js b a h
  cases a <;> cases b <;> simp_all [JSNumber.lt, JSNumber.ge]

theorem sameValueZero_refl (a : JSNumber) : JSNumber.sameValueZero a a = true := by
  cases a <;> simp [JSNumber.sameValueZero]

theorem sameValueZero_symm (a b : JSNumber) :
    JSNumber.sameValueZero a b = JSNumber.sameValueZero b a := by
  cases a <;> cases b <;> simp [JSNumber.sameValueZero, eq_comm]

theorem sameValueZero_trans (a b c : JSNumber) (h1 : JSNumber.sameValueZero a b = true)
    (h2 : JSNumber.sameValueZero b c = true) : JSNumber.sameValueZero a c = true := by
  cases a <;> cases b <;> cases c <;> simp_all [JSNumber.sameValueZero]

/-! ## Deduplication and ranking -/

theorem sameValueZero_iff_value (a b : JSNumber) :
    JSNumber.sameValueZero a b = true ↔ a.value = b.value := by
  cases a with
  | nan => cases b with
    | nan => simp [JSNumber.sameValueZero]
    | inf t => simp [JSNumber.sameValueZero, JSNumber.value]
    | fin t l => cases l <;> simp [JSNumber.sameValueZero, JSNumber.value]
  | inf s => cases b with
    | nan => simp [JSNumber.sameValueZero, JSNumber.value]
    | inf t => simp [JSNumber.sameValueZero, JSNumber.value]
    | fin t l => cases l <;> simp [JSNumber.sameValueZero, JSNumber.value]
  | fin s k => cases b with
    | nan => cases k <;> simp [JSNumber.sameValueZero, JSNumber.value]
    | inf t => cases k <;> simp [JSNumber.sameValueZero, JSNumber.value]
    | fin t l =>
      cases k <;> cases l <;> cases s <;> cases t <;>
        simp [JSNumber.sameValueZero, JSNumber.value, signedUnits] <;> omega

theorem setHas_eq_any (st : DedupState) (h : st.Consistent) (v : JSNumber) :
    setHas st.uniquePrices v = st.uniqueProducts.any (hasPrice v) := by
  unfold setHas
  rw [h]
  generalize st.uniqueProducts = l
  induction l with
  | nil => rfl
  | cons a l ih => simp only [List.map_cons, List.any_cons, ih]; rfl

theorem dedupStep_consistent (st : DedupState) (h : st.Consistent) (p : Product) :
    (dedupStep st p).Consistent := by
  unfold dedupStep
  split_ifs
  · unfold DedupState.Consistent at *
    simp [h]
  · exact h

theorem hasPrice_congr (v : JSNumber) (p q : Product)
    (h : JSNumber.sameValueZero q.price p.price = true) : hasPrice v p = hasPrice v q := by
  unfold hasPrice
  cases h1 : JSNumber.sameValueZero q.price v
  · cases h2 : JSNumber.sameValueZero p.price v
    · rfl
    · have := sameValueZero_trans _ _ _ h h2
      rw [h1] at this
      exact absurd this (by simp)
  · rw [sameValueZero_symm] at h
    exact sameValueZero_trans _ _ _ h h1

theorem foldl_dedupStep_filter (products : List Product) (st : DedupState) (h : st.Consistent)
    (v : JSNumber) :
    (products.foldl dedupStep st).uniqueProducts.filter (hasPrice v) =
      st.uniqueProducts.filter (hasPrice v) ++
        (if st.uniqueProducts.any (hasPrice v) then []
          else (products.find? (hasPrice v)).toList) := by
  induction products generalizing st with
  | nil => simp
  | cons p ps ih =>
    rw [List.foldl_cons, ih _ (dedupStep_consistent st h p)]
    unfold dedupStep
    by_cases hnew : setHas st.uniquePrices p.price = true
    · -- `p` repeats a price already in the set
      simp only [hnew, Bool.not_true, Bool.false_eq_true, if_false]
      congr 1
      by_cases hv : st.uniqueProducts.any (hasPrice v) = true
      · simp [hv]
      · simp only [hv, if_false]
        rw [setHas_eq_any st h, List.any_eq_true] at hnew
        obtain ⟨q, hq, hqp⟩ := hnew
        have hpv : hasPrice v p = false := by
          rw [hasPrice_congr v p q hqp]
          cases hq' : hasPrice v q
          · rfl
          · exact absurd (List.any_eq_true.mpr ⟨q, hq, hq'⟩) hv
        rw [List.find?_cons_of_neg _ (by simp [hpv])]
    · -- `p` brings a new price
      have hnew' : setHas st.uniquePrices p.price = false := by simpa using hnew
      simp only [hnew', Bool.not_false, if_true]
      rw [List.filter_append, List.append_assoc]
      congr 1
      by_cases hpv : hasPrice v p = true
      · have hv : ¬ st.uniqueProducts.any (hasPrice v) = true := by
          intro hv
          apply hnew
          rw [setHas_eq_any st h, List.any_eq_true]
          obtain ⟨q, hq, hqv⟩ := List.any_eq_true.mp hv
          refine ⟨q, hq, ?_⟩
          unfold hasPrice at *
          rw [sameValueZero_symm] at hpv
          rw [sameValueZero_symm] at hqv ⊢
          rw [sameValueZero_symm] at hqv
          rw [sameValueZero_symm]
          exact sameValueZero_trans _ _ _ hqv hpv
        simp [hpv, hv, List.find?_cons_of_pos]
      · have hpv' : hasPrice v p = false := by simpa using hpv
        rw [List.find?_cons_of_neg _ (by simp [hpv'])]
        simp [hpv', List.any_append]

theorem dedupProducts_filter (products : List Product) (v : JSNumber) :
    (dedupProducts products).filter (hasPrice v) = (products.find? (hasPrice v)).toList := by
  unfold dedupProducts
  have h0 : DedupState.Consistent { uniquePrices := [], uniqueProducts := [] } := rfl
  rw [foldl_dedupStep_filter products _ h0 v]
  simp

theorem foldl_dedupStep_pairwise (products : List Product) (st : DedupState) (h : st.Consistent)
    (hp : st.uniqueProducts.Pairwise
      (fun a b => JSNumber.sameValueZero a.price b.price = false)) :
    (products.foldl dedupStep st).uniqueProducts.Pairwise
      (fun a b => JSNumber.sameValueZero a.price b.price = false) := by
  induction products generalizing st with
  | nil => exact hp
  | cons p ps ih =>
    rw [List.foldl_cons]
    apply ih _ (dedupStep_consistent st h p)
    unfold dedupStep
    by_cases hnew : setHas st.uniquePrices p.price = true
    · simpa [hnew] using hp
    · have hnew' : setHas st.uniquePrices p.price = false := by simpa using hnew
      simp only [hnew', Bool.not_false, if_true]
      rw [List.pairwise_append]
      refine ⟨hp, List.pairwise_singleton _ _, ?_⟩
      intro a ha b hb
      rw [List.mem_singleton] at hb
      subst hb
      rw [setHas_eq_any st h] at hnew'
      cases hab : JSNumber.sameValueZero a.price b.price
      · rfl
      · have : st.uniqueProducts.any (hasPrice b.price) = true :=
          List.any_eq_true.mpr ⟨a, ha, hab⟩
        rw [hnew'] at this
        exact absurd this (by simp)

theorem dedupProducts_pairwise (products : List Product) :
    (dedupProducts products).Pairwise
      (fun a b => JSNumber.sameValueZero a.price b.price = false) :=
  foldl_dedupStep_pairwise products _ rfl List.Pairwise.nil

theorem dedupProducts_subset (products : List Product) (p : Product)
    (hp : p ∈ dedupProducts products) : p ∈ products := by
  have hf : p ∈ (dedupProducts products).filter (hasPrice p.price) := by
    rw [List.mem_filter]
    exact ⟨hp, sameValueZero_refl _⟩
  rw [dedupProducts_filter] at hf
  cases hfind : products.find? (hasPrice p.price) with
  | none => rw [hfind] at hf; simp at hf
  | some q =>
    rw [hfind] at hf
    simp at hf
    subst hf
    exact List.mem_of_find?_eq_some hfind

theorem dedupProducts_covers (products : List Product) (p : Product) (hp : p ∈ products) :
    ∃ q ∈ dedupProducts products, JSNumber.sameValueZero q.price p.price = true := by
  cases hfind : products.find? (hasPrice p.price) with
  | none =>
    rw [List.find?_eq_none] at hfind
    exact absurd (sameValueZero_refl _) (hfind p hp)
  | some q =>
    have hf : q ∈ (dedupProducts products).filter (hasPrice p.price) := by
      rw [dedupProducts_filter, hfind]
      simp
    rw [List.mem_filter] at hf
    exact ⟨q, hf.1, hf.2⟩

theorem dedupProducts_values_nodup (products : List Product) :
    ((dedupProducts products).map (fun p => p.price.value)).Nodup := by
  rw [List.Nodup, List.pairwise_map]
  refine (dedupProducts_pairwise products).imp ?_
  intro a b hab heq
  rw [← sameValueZero_iff_value, hab] at heq
  exact absurd heq (by simp)

theorem distinctPrices_dedupProducts (products : List Product) :
    distinctPrices (dedupProducts products) = distinctPrices products := by
  ext v
  simp only [distinctPrices, List.mem_toFinset, List.mem_map]
  constructor
  · rintro ⟨p, hp, rfl⟩
    exact ⟨p, dedupProducts_subset products p hp, rfl⟩
  · rintro ⟨p, hp, rfl⟩
    obtain ⟨q, hq, hqp⟩ := dedupProducts_covers products p hp
    exact ⟨q, hq, (sameValueZero_iff_value _ _).mp hqp⟩

theorem length_dedupProducts (products : List Product) :
    (dedupProducts products).length = (distinctPrices products).card := by
  rw [← distinctPrices_dedupProducts, distinctPrices,
    List.toFinset_card_of_nodup (dedupProducts_values_nodup products), List.length_map]

theorem sortInsert_perm (x : Product) (l : List Product) :
    List.Perm (sortInsert x l) (x :: l) := by
  induction l with
  | nil => exact List.Perm.refl _
  | cons y ys ih =>
    unfold sortInsert
    split_ifs
    · exact (List.Perm.cons y ih).trans (List.Perm.swap x y ys)
    · exact List.Perm.refl _

theorem sortByPriceDesc_perm (l : List Product) : List.Perm (sortByPriceDesc l) l := by
  induction l with
  | nil => exact List.Perm.refl _
  | cons x xs ih =>
    unfold sortByPriceDesc
    exact (sortInsert_perm x _).trans (List.Perm.cons x ih)

theorem sortInsert_sorted (x : Product) (l : List Product) (hx : x.price ≠ JSNumber.nan)
    (hl : ∀ y ∈ l, y.price ≠ JSNumber.nan)
    (hxl : ∀ y ∈ l, JSNumber.sameValueZero x.price y.price = false)
    (hs : l.Pairwise (fun a b => JSNumber.gt a.price b.price = true)) :
    (sortInsert x l).Pairwise (fun a b => JSNumber.gt a.price b.price = true) := by
  induction l with
  | nil => exact List.pairwise_singleton _ _
  | cons y ys ih =>
    unfold sortInsert
    rw [sortCompare_gt_zero]
    rw [List.pairwise_cons] at hs
    by_cases hlt : JSNumber.lt x.price y.price = true
    · simp only [hlt, if_true]
      rw [List.pairwise_cons]
      refine ⟨?_, ih (fun z hz => hl z (List.mem_cons_of_mem _ hz))
        (fun z hz => hxl z (List.mem_cons_of_mem _ hz)) hs.2⟩
      intro z hz
      rcases (List.mem_cons.mp ((sortInsert_perm x ys).subset hz)) with rfl | hz
      · exact hlt
      · exact hs.1 z hz
    · have hlt' : JSNumber.lt x.price y.price = false := by simpa using hlt
      simp only [hlt', Bool.false_eq_true, if_false]
      have hyx : JSNumber.lt y.price x.price = true := by
        rcases lt_total_js x.price y.price hx (hl y (List.mem_cons_self _ _))
          (hxl y (List.mem_cons_self _ _)) with h | h
        · exact absurd h hlt
        · exact h
      rw [List.pairwise_cons]
      refine ⟨?_, List.pairwise_cons.mpr hs⟩
      intro z hz
      rcases List.mem_cons.mp hz with rfl | hz
      · exact hyx
      · exact lt_trans_js _ _ _ (hs.1 z hz) hyx

theorem sortByPriceDesc_sorted (l : List Product) (hl : ∀ y ∈ l, y.price ≠ JSNumber.nan)
    (hd : l.Pairwise (fun a b => JSNumber.sameValueZero a.price b.price = false)) :
    (sortByPriceDesc l).Pairwise (fun a b => JSNumber.gt a.price b.price = true) := by
  induction l with
  | nil => exact List.Pairwise.nil
  | cons x xs ih =>
    unfold sortByPriceDesc
    rw [List.pairwise_cons] at hd
    apply sortInsert_sorted
    · exact hl x (List.mem_cons_self _ _)
    · intro y hy
      exact hl y (List.mem_cons_of_mem _ ((sortByPriceDesc_perm xs).subset hy))
    · intro y hy
      exact hd.1 y ((sortByPriceDesc_perm xs).subset hy)
    · exact ih (fun y hy => hl y (List.mem_cons_of_mem _ hy)) hd.2

theorem lineFields_length (line : JSString) :
    (lineFields line).length = (splitOn ',' line).length := by
  unfold lineFields
  rw [List.length_map]

theorem parseLine_ok (line : JSString) (price : JSString)
    (h : (lineFields line).get? 1 = some price) :
    parseLine line = Except.ok
      { name := (lineFields line).get? 0
        price := parseFloat (stripNonNumeric price)
        image := (lineFields line).get? 2
        link := (lineFields line).get? 3 } := by
  unfold parseLine
  simp only [h]

theorem parseLine_error (line : JSString) (h : (splitOn ',' line).length < 2) :
    parseLine line = Except.error Fault.typeError := by
  unfold parseLine
  have : (lineFields line).get? 1 = none := by
    rw [List.get?_eq_none]
    rw [lineFields_length]
    omega
  simp only [this]

theorem lineFields_get_one (line : JSString) (h : 2 ≤ (splitOn ',' line).length) :
    ∃ price, (lineFields line).get? 1 = some price := by
  have hlen : 1 < (lineFields line).length := by rw [lineFields_length]; omega
  exact ⟨(lineFields line).get ⟨1, hlen⟩, List.get?_eq_get hlen⟩

theorem parseLines_ok (lines : List JSString)
    (h : ∀ line ∈ lines, 2 ≤ (splitOn ',' line).length) :
    ∃ products, parseLines lines = Except.ok products ∧
      List.Forall₂ (fun line p => parseLine line = Except.ok p) lines products := by
  induction lines with
  | nil => exact ⟨[], rfl, List.Forall₂.nil⟩
  | cons line rest ih =>
    obtain ⟨ps, hps, hall⟩ := ih (fun l hl => h l (List.mem_cons_of_mem _ hl))
    obtain ⟨price, hprice⟩ := lineFields_get_one line (h line (List.mem_cons_self _ _))
    refine ⟨_ :: ps, ?_, List.Forall₂.cons (parseLine_ok line price hprice) hall⟩
    unfold parseLines
    rw [parseLine_ok line price hprice, hps]

theorem parseLines_error (lines : List JSString)
    (h : ∃ line ∈ lines, (splitOn ',' line).length < 2) :
    parseLines lines = Except.error Fault.typeError := by
  induction lines with
  | nil => obtain ⟨l, hl, _⟩ := h; simp at hl
  | cons line rest ih =>
    unfold parseLines
    by_cases hline : (splitOn ',' line).length < 2
    · rw [parseLine_error line hline]
    · obtain ⟨price, hprice⟩ := lineFields_get_one line (by omega)
      rw [parseLine_ok line price hprice]
      obtain ⟨l, hl, hlt⟩ := h
      rcases List.mem_cons.mp hl with rfl | hl
      · exact absurd hlt hline
      · rw [ih ⟨l, hl, hlt⟩]

theorem getUniquePricedProducts_ok (csvData : JSString) (n : Nat) (products : List Product)
    (h : parseProducts csvData = Except.ok products) :
    getUniquePricedProducts csvData n =
      Except.ok ((sortByPriceDesc (dedupProducts products)).take n) := by
  unfold getUniquePricedProducts
  rw [h]

/-- C1 fails as stated: a file that ends with a line feed has the empty line as
its last data row, and the file `saveProductsToCSV` writes for a record whose
name holds a line feed has the data row `Fancy`; such a row has no price field
and `getUniquePricedProducts` raises a `TypeError` instead of returning
products. -/
theorem getUniquePricedProducts_row_without_price_faults :
    getUniquePricedProducts trailingNewlineCsv 5 = Except.error Fault.typeError ∧
    dataLines (saveProductsToCSV [lineFeedRecord]) =
      ["Fancy".toList, "Mug,$10,img,link".toList] ∧
    getUniquePricedProducts (saveProductsToCSV [lineFeedRecord]) 1 =
      Except.error Fault.typeError := by
  decide!

/-- C1, amended: when every data row has a price field (at least two
comma-separated fields), `getUniquePricedProducts(n)` returns products with
pairwise distinct prices, as many as the smaller of `n` and the number of
distinct parsed prices among the rows, and all the distinct prices appear when
there are at most `n` of them. -/
theorem getUniquePricedProducts_distinct_count (csvData : JSString) (n : Nat)
    (h : ∀ line ∈ dataLines csvData, 2 ≤ (splitOn ',' line).length) :
    ∃ products out, parseProducts csvData = Except.ok products ∧
      getUniquePricedProducts csvData n = Except.ok out ∧
      out.Pairwise (fun a b => JSNumber.sameValueZero a.price b.price = false) ∧
      out.length = min n (distinctPrices products).card ∧
      ((distinctPrices products).card ≤ n → distinctPrices out = distinctPrices products) := by
  obtain ⟨products, hps, _⟩ := parseLines_ok (dataLines csvData) h
  refine ⟨products, _, hps, getUniquePricedProducts_ok csvData n products hps, ?_, ?_, ?_⟩
  · have hsym : Symmetric (fun a b : Product =>
        JSNumber.sameValueZero a.price b.price = false) := by
      intro a b hab
      rw [sameValueZero_symm]
      exact hab
    have hsorted := ((sortByPriceDesc_perm (dedupProducts products)).pairwise_iff
      (fun {a b} hab => hsym hab)).mpr (dedupProducts_pairwise products)
    exact hsorted.sublist (List.take_sublist _ _)
  · rw [List.length_take, (sortByPriceDesc_perm _).length_eq, length_dedupProducts]
  · intro hle
    rw [List.take_of_length_le
      (by rw [(sortByPriceDesc_perm _).length_eq, length_dedupProducts]; exact hle)]
    rw [← distinctPrices_dedupProducts products]
    ext v
    simp only [distinctPrices, List.mem_toFinset, List.mem_map]
    constructor
    · rintro ⟨p, hp, rfl⟩
      exact ⟨p, (sortByPriceDesc_perm _).subset hp, rfl⟩
    · rintro ⟨p, hp, rfl⟩
      exact ⟨p, (sortByPriceDesc_perm _).symm.subset hp, rfl⟩

/-- The end-to-end example of the specification: of the rows `A,100`, `B,150`
and `C,100`, the two returned are `B` then `A`. -/
theorem getUniquePricedProducts_example :
    getUniquePricedProducts exampleCsv 2 = Except.ok [exampleB, exampleA] := by
  decide!

/-- Witness of the amended C1 on the end-to-end example of the specification. -/
theorem getUniquePricedProducts_distinct_count_witness :
    (∀ line ∈ dataLines exampleCsv, 2 ≤ (splitOn ',' line).length) ∧
    ∃ products out, parseProducts exampleCsv = Except.ok products ∧
      getUniquePricedProducts exampleCsv 2 = Except.ok out ∧
      out.Pairwise (fun a b => JSNumber.sameValueZero a.price b.price = false) ∧
      out.length = min 2 (distinctPrices products).card ∧
      ((distinctPrices products).card ≤ 2 → distinctPrices out = distinctPrices products) :=
  ⟨by decide!, getUniquePricedProducts_distinct_count exampleCsv 2 (by decide!)⟩

/-- C2: for every price, the deduplication keeps exactly the first product of
the input that has this price (and none when no product has it); in the file
with the rows `A,$10` and `B,$10` the one product returned is `A`. -/
theorem dedupProducts_first_occurrence :
    (∀ (products : List Product) (v : JSNumber),
      (dedupProducts products).filter (hasPrice v) = (products.find? (hasPrice v)).toList) ∧
    getUniquePricedProducts samePriceCsv 1 = Except.ok [samePriceA] :=
  ⟨dedupProducts_filter, by decide!⟩

/-- C3 fails as stated: for the rows `A,N/A` and `B,5` the result is `A`
(price `NaN`) followed by `B` (price `5`), and `NaN >= 5` is false. -/
theorem getUniquePricedProducts_not_descending :
    getUniquePricedProducts missingPriceCsv 2 = Except.ok [missingPriceA, missingPriceB] ∧
    JSNumber.ge missingPriceA.price missingPriceB.price = false := by
  decide!

theorem forall₂_parseLine_mem (lines : List JSString) (products : List Product)
    (hall : List.Forall₂ (fun line p => parseLine line = Except.ok p) lines products)
    (p : Product) (hp : p ∈ products) :
    ∃ line ∈ lines, parseLine line = Except.ok p := by
  induction hall with
  | nil => simp at hp
  | cons hhead _ ih =>
    rcases List.mem_cons.mp hp with rfl | hp
    · exact ⟨_, List.mem_cons_self _ _, hhead⟩
    · obtain ⟨line, hline, hlp⟩ := ih hp
      exact ⟨line, List.mem_cons_of_mem _ hline, hlp⟩

/-- C3, amended: when the price field of every data row parses to a number,
the result is the first `n` entries of a strictly descending arrangement of the
deduplicated products, so each price is `>=` the next. -/
theorem getUniquePricedProducts_descending (csvData : JSString) (n : Nat)
    (h : ∀ line ∈ dataLines csvData, ∃ price, (lineFields line).get? 1 = some price ∧
      parseFloat (stripNonNumeric price) ≠ JSNumber.nan) :
    ∃ products sorted, parseProducts csvData = Except.ok products ∧
      List.Perm sorted (dedupProducts products) ∧
      sorted.Pairwise (fun a b => JSNumber.gt a.price b.price = true) ∧
      getUniquePricedProducts csvData n = Except.ok (sorted.take n) ∧
      (sorted.take n).Chain' (fun a b => JSNumber.ge a.price b.price = true) := by
  have h2 : ∀ line ∈ dataLines csvData, 2 ≤ (splitOn ',' line).length := by
    intro line hline
    obtain ⟨price, hp, _⟩ := h line hline
    have hlt := (List.get?_eq_some.mp hp).1
    rw [lineFields_length] at hlt
    omega
  obtain ⟨products, hps, hall⟩ := parseLines_ok (dataLines csvData) h2
  have hnan : ∀ p ∈ products, p.price ≠ JSNumber.nan := by
    intro p hp
    obtain ⟨line, hline, hlp⟩ := forall₂_parseLine_mem _ _ hall p hp
    obtain ⟨price, hprice, hne⟩ := h line hline
    rw [parseLine_ok line price hprice] at hlp
    have hpr := congrArg (fun r : Except Fault Product => r.toOption.map (fun q => q.price)) hlp
    simp [Except.toOption] at hpr
    rw [← hpr]
    exact hne
  have hsorted := sortByPriceDesc_sorted (dedupProducts products)
    (fun p hp => hnan p (dedupProducts_subset products p hp)) (dedupProducts_pairwise products)
  refine ⟨products, sortByPriceDesc (dedupProducts products), hps, sortByPriceDesc_perm _,
    hsorted, getUniquePricedProducts_ok csvData n products hps, ?_⟩
  apply List.Pairwise.chain'
  refine (hsorted.sublist (List.take_sublist _ _)).imp ?_
  intro a b hab
  exact ge_of_lt _ _ hab

/-- Witness of the amended C3 on the end-to-end example of the specification. -/
theorem getUniquePricedProducts_descending_witness :
    (∀ line ∈ dataLines exampleCsv, ∃ price, (lineFields line).get? 1 = some price ∧
      parseFloat (stripNonNumeric price) ≠ JSNumber.nan) ∧
    ∃ products sorted, parseProducts exampleCsv = Except.ok products ∧
      List.Perm sorted (dedupProducts products) ∧
      sorted.Pairwise (fun a b => JSNumber.gt a.price b.price = true) ∧
      getUniquePricedProducts exampleCsv 2 = Except.ok (sorted.take 2) ∧
      (sorted.take 2).Chain' (fun a b => JSNumber.ge a.price b.price = true) :=
  have h : ∀ line ∈ dataLines exampleCsv, ∃ price, (lineFields line).get? 1 = some price ∧
      parseFloat (stripNonNumeric price) ≠ JSNumber.nan := by
    have hlines : dataLines exampleCsv =
        ["\"A\",100,img1,link1".toList, "\"B\",150,img2,link2".toList,
          "\"C\",100,img3,link3".toList] := by decide!
    rw [hlines]
    intro line hline
    simp only [List.mem_cons, List.mem_singleton, List.not_mem_nil, or_false] at hline
    rcases hline with rfl | rfl | rfl
    · exact ⟨"100".toList, by decide!, by decide!⟩
    · exact ⟨"150".toList, by decide!, by decide!⟩
    · exact ⟨"100".toList, by decide!, by decide!⟩
  ⟨h, getUniquePricedProducts_descending exampleCsv 2 h⟩

/-- C7 fails as stated: the data row `A,10` has two fields, fewer than four,
and `getUniquePricedProducts` raises no fault: it returns the product with
`image` and `link` undefined. -/
theorem getUniquePricedProducts_short_row_no_fault :
    dataLines shortRowCsv = ["A,10".toList] ∧
    (splitOn ',' "A,10".toList).length = 2 ∧
    getUniquePricedProducts shortRowCsv 1 = Except.ok [shortRowA] := by
  decide!

/-- C7, amended: `getUniquePricedProducts` raises a fault, a `TypeError`,
exactly when some data row has fewer than two fields after the split on commas
(a row without a comma), and returns a result exactly when every data row has
at least two fields. -/
theorem getUniquePricedProducts_fault_iff (csvData : JSString) (n : Nat) :
    (getUniquePricedProducts csvData n = Except.error Fault.typeError ↔
      ∃ line ∈ dataLines csvData, (splitOn ',' line).length < 2) ∧
    ((∃ out, getUniquePricedProducts csvData n = Except.ok out) ↔
      ∀ line ∈ dataLines csvData, 2 ≤ (splitOn ',' line).length) := by
  by_cases h : ∃ line ∈ dataLines csvData, (splitOn ',' line).length < 2
  · have herr : getUniquePricedProducts csvData n = Except.error Fault.typeError := by
      unfold getUniquePricedProducts parseProducts
      rw [parseLines_error _ h]
    refine ⟨⟨fun _ => h, fun _ => herr⟩, ?_, ?_⟩
    · rintro ⟨out, hout⟩
      rw [herr] at hout
      exact absurd hout (by simp)
    · intro hall
      obtain ⟨line, hline, hlt⟩ := h
      have := hall line hline
      omega
  · have hall : ∀ line ∈ dataLines csvData, 2 ≤ (splitOn ',' line).length := by
      intro line hline
      by_contra hlt
      exact h ⟨line, hline, by omega⟩
    obtain ⟨products, hps, _⟩ := parseLines_ok _ hall
    have hok := getUniquePricedProducts_ok csvData n products hps
    refine ⟨⟨?_, fun h' => absurd h' h⟩, fun _ => hall, fun _ => ⟨_, hok⟩⟩
    intro herr
    rw [hok] at herr
    exact absurd herr (by simp)

/-- When no price is `NaN` and the prices are pairwise different, the result
of the sort does not depend on the sorting algorithm: every strictly
descending arrangement of the products is the one `sortByPriceDesc` returns. -/
theorem sortByPriceDesc_unique (l sorted : List Product)
    (hl : ∀ y ∈ l, y.price ≠ JSNumber.nan)
    (hd : l.Pairwise (fun a b => JSNumber.sameValueZero a.price b.price = false))
    (hperm : List.Perm sorted l)
    (hs : sorted.Pairwise (fun a b => JSNumber.gt a.price b.price = true)) :
    sorted = sortByPriceDesc l := by
  haveI : IsAntisymm Product (fun a b => JSNumber.gt a.price b.price = true) :=
    ⟨fun a b hab hba => by
      have := lt_asymm_js _ _ hab
      unfold JSNumber.gt at hba
      rw [this] at hba
      exact absurd hba (by simp)⟩
  exact List.eq_of_perm_of_sorted (hperm.trans (sortByPriceDesc_perm l).symm) hs
    (sortByPriceDesc_sorted l hl hd)

/-- A row of two fields gives a product without image and link, a row of three
fields a product without link: the missing fields are `undefined`. -/
theorem parseLine_missing_fields (line : JSString) :
    ((splitOn ',' line).length = 2 →
      ∃ p, parseLine line = Except.ok p ∧ p.image = none ∧ p.link = none) ∧
    ((splitOn ',' line).length = 3 →
      ∃ p, parseLine line = Except.ok p ∧ p.image ≠ none ∧ p.link = none) := by
  constructor
  · intro h
    obtain ⟨price, hprice⟩ := lineFields_get_one line (by omega)
    refine ⟨_, parseLine_ok line price hprice, ?_, ?_⟩
    · exact List.get?_eq_none.mpr (by rw [lineFields_length]; omega)
    · exact List.get?_eq_none.mpr (by rw [lineFields_length]; omega)
  · intro h
    obtain ⟨price, hprice⟩ := lineFields_get_one line (by omega)
    refine ⟨_, parseLine_ok line price hprice, ?_, ?_⟩
    · intro hnone
      have := List.get?_eq_none.mp hnone
      rw [lineFields_length] at this
      omega
    · exact List.get?_eq_none.mpr (by rw [lineFields_length]; omega)

/-! ## Persistence round trip -/

theorem splitOn_ne_nil (sep : Char) (s : JSString) : splitOn sep s ≠ [] := by
  induction s with
  | nil => simp [splitOn]
  | cons c cs ih =>
    unfold splitOn
    split_ifs
    · simp
    · split <;> simp

theorem splitOn_of_not_mem (sep : Char) (s : JSString) (h : sep ∉ s) : splitOn sep s = [s] := by
  induction s with
  | nil => rfl
  | cons c cs ih =>
    rw [List.mem_cons, not_or] at h
    unfold splitOn
    rw [if_neg (fun hc => h.1 hc.symm), ih h.2]

theorem splitOn_append_sep (sep : Char) (s rest : JSString) (h : sep ∉ s) :
    splitOn sep (s ++ sep :: rest) = s :: splitOn sep rest := by
  induction s with
  | nil =>
    rw [List.nil_append]
    conv_lhs => unfold splitOn
    rw [if_pos rfl]
  | cons c cs ih =>
    rw [List.mem_cons, not_or] at h
    rw [List.cons_append]
    conv_lhs => unfold splitOn
    rw [if_neg (fun hc => h.1 hc.symm), ih h.2]

theorem splitOn_joinWith (sep : Char) (x : JSString) (xs : List JSString)
    (h : ∀ y ∈ x :: xs, sep ∉ y) : splitOn sep (joinWith sep (x :: xs)) = x :: xs := by
  induction xs generalizing x with
  | nil =>
    unfold joinWith
    exact splitOn_of_not_mem sep x (h x (List.mem_cons_self _ _))
  | cons y ys ih =>
    unfold joinWith
    rw [splitOn_append_sep sep x _ (h x (List.mem_cons_self _ _)),
      ih y (fun z hz => h z (List.mem_cons_of_mem _ hz))]

theorem mem_joinWith (sep c : Char) (xs : List JSString) (h : c ∈ joinWith sep xs) :
    c = sep ∨ ∃ x ∈ xs, c ∈ x := by
  induction xs with
  | nil => simp [joinWith] at h
  | cons x rest ih =>
    cases rest with
    | nil =>
      right
      exact ⟨x, List.mem_cons_self _ _, by simpa [joinWith] using h⟩
    | cons y ys =>
      unfold joinWith at h
      rw [List.mem_append, List.mem_cons] at h
      rcases h with h | h | h
      · exact Or.inr ⟨x, List.mem_cons_self _ _, h⟩
      · exact Or.inl h
      · rcases ih h with h | ⟨z, hz, hcz⟩
        · exact Or.inl h
        · exact Or.inr ⟨z, List.mem_cons_of_mem _ hz, hcz⟩

theorem isPlainField_iff (f : JSString) :
    isPlainField f = true ↔ ',' ∉ f ∧ '\n' ∉ f := by
  unfold isPlainField
  simp

/-- The line written for one record. -/
theorem parseLine_row (r : ListingRecord) (h : isPlainRecord r = true) :
    parseLine (joinWith ',' [r.name, r.price, r.image, r.link]) =
      Except.ok (productOfRecord r) := by
  unfold isPlainRecord at h
  simp only [Bool.and_eq_true, isPlainField_iff] at h
  obtain ⟨⟨⟨hn, hp⟩, hi⟩, hl⟩ := h
  have hsplit : splitOn ',' (joinWith ',' [r.name, r.price, r.image, r.link]) =
      [r.name, r.price, r.image, r.link] := by
    apply splitOn_joinWith
    intro y hy
    simp only [List.mem_cons, List.mem_singleton, List.not_mem_nil, or_false] at hy
    rcases hy with rfl | rfl | rfl | rfl
    · exact hn.1
    · exact hp.1
    · exact hi.1
    · exact hl.1
  unfold parseLine lineFields
  rw [hsplit]
  rfl

theorem parseLines_rows (records : List ListingRecord)
    (h : ∀ r ∈ records, isPlainRecord r = true) :
    parseLines (records.map (fun p => joinWith ',' [p.name, p.price, p.image, p.link])) =
      Except.ok (records.map productOfRecord) := by
  induction records with
  | nil => rfl
  | cons r rest ih =>
    rw [List.map_cons, List.map_cons]
    unfold parseLines
    rw [parseLine_row r (h r (List.mem_cons_self _ _)),
      ih (fun q hq => h q (List.mem_cons_of_mem _ hq))]

theorem newline_not_mem_row (r : ListingRecord) (h : isPlainRecord r = true) :
    '\n' ∉ joinWith ',' [r.name, r.price, r.image, r.link] := by
  unfold isPlainRecord at h
  simp only [Bool.and_eq_true, isPlainField_iff] at h
  obtain ⟨⟨⟨hn, hp⟩, hi⟩, hl⟩ := h
  intro hmem
  rcases mem_joinWith _ _ _ hmem with hc | ⟨x, hx, hcx⟩
  · exact absurd hc (by decide)
  · simp only [List.mem_cons, List.mem_singleton, List.not_mem_nil, or_false] at hx
    rcases hx with rfl | rfl | rfl | rfl
    · exact hn.2 hcx
    · exact hp.2 hcx
    · exact hi.2 hcx
    · exact hl.2 hcx

theorem dataLines_saveProductsToCSV (records : List ListingRecord)
    (h : ∀ r ∈ records, isPlainRecord r = true) :
    dataLines (saveProductsToCSV records) =
      records.map (fun p => joinWith ',' [p.name, p.price, p.image, p.link]) := by
  unfold dataLines saveProductsToCSV parserParse
  rw [splitOn_joinWith]
  · rfl
  · intro y hy
    rcases List.mem_cons.mp hy with rfl | hy
    · decide
    · obtain ⟨r, hr, rfl⟩ := List.mem_map.mp hy
      exact newline_not_mem_row r (h r hr)

/-- C4 fails as stated: the record named `Shirt, blue` is written as a row of
five comma-separated pieces, and the read path rebuilds a product named
`Shirt` whose later fields are shifted. -/
theorem saveProductsToCSV_comma_shifts_fields :
    parseProducts (saveProductsToCSV [commaRecord]) = Except.ok [commaProduct] ∧
    commaProduct.name ≠ some (removeQuotes commaRecord.name) ∧
    commaProduct.image ≠ some (removeQuotes commaRecord.image) ∧
    commaProduct.link ≠ some (removeQuotes commaRecord.link) := by
  decide!

/-- C4, amended: for records whose fields contain no comma and no line feed,
writing them with `saveProductsToCSV` and reading the file back yields one
product per record, in order: name, image and link are the original texts with
double quotes removed and surrounding white space trimmed, and the price is the
number parsed from the original price text. -/
theorem saveProductsToCSV_round_trip (records : List ListingRecord)
    (h : ∀ r ∈ records, isPlainRecord r = true) :
    parseProducts (saveProductsToCSV records) = Except.ok (records.map productOfRecord) ∧
    (records.map productOfRecord).length = records.length := by
  refine ⟨?_, List.length_map _ _⟩
  unfold parseProducts
  rw [dataLines_saveProductsToCSV records h]
  exact parseLines_rows records h

/-- The product read back for `quotedRecord`: the quotes and the trailing blank
of the name are gone and the price is the number `12.5`. -/
theorem productOfRecord_quotedRecord :
    productOfRecord quotedRecord =
      { name := some "Mug".toList, price := JSNumber.fin false (25 * 2 ^ 1073),
        image := some "img".toList, link := some "link".toList } := by
  decide!

/-- Witness of the amended C4 on a record with a quoted name. -/
theorem saveProductsToCSV_round_trip_witness :
    (∀ r ∈ [quotedRecord], isPlainRecord r = true) ∧
    parseProducts (saveProductsToCSV [quotedRecord]) =
      Except.ok ([quotedRecord].map productOfRecord) ∧
    ([quotedRecord].map productOfRecord).length = [quotedRecord].length :=
  ⟨by decide, saveProductsToCSV_round_trip [quotedRecord] (by decide)⟩

/-! ## The load-more loop -/

theorem interactableAt_true (page : ListingPage) (i : Nat) (h : interactableAt page i = true) :
    page.find i = Except.ok true ∧
      ∃ button, page.evalButton i = Except.ok button ∧ isClickable button = true := by
  unfold interactableAt at h
  split at h
  · next hf hb => exact ⟨hf, _, hb, h⟩
  · exact absurd h (by simp)

theorem harvestAt_ok (page : ListingPage) (i : Nat) (items : List ProductItem)
    (h : page.evaluate i = Except.ok items) : harvestAt page i = scrapeVisibleProducts items := by
  unfold harvestAt
  rw [h]

/-- The reveal loop on a fault-free page whose button is interactable at the
next `j` attempts and, if the cap allows a further attempt, not at the one
after: `min remaining j` clicks, each followed by one harvest. -/
theorem revealLoop_faultFree (page : ListingPage) (hff : FaultFree page)
    (remaining clickCount j : Nat) (allProducts : List ListingRecord)
    (hj : ∀ i < j, interactableAt page (clickCount + i) = true)
    (hstop : j < remaining → interactableAt page (clickCount + j) = false) :
    (revealLoop page remaining clickCount allProducts).1 =
        Except.ok (allProducts ++
          ((List.range' (clickCount + 1) (min remaining j)).map (harvestAt page)).flatten) ∧
      (revealLoop page remaining clickCount allProducts).2.count Effect.click =
        min remaining j ∧
      (revealLoop page remaining clickCount allProducts).2.filterMap loggedHarvest =
        (List.range' (clickCount + 1) (min remaining j)).map (harvestAt page) := by
  induction remaining generalizing clickCount j allProducts with
  | zero => simp [revealLoop]
  | succ remaining ih =>
    obtain ⟨_, hev, hfind, hbtn, hclick⟩ := hff
    cases j with
    | zero =>
      have hno : interactableAt page clickCount = false := by
        simpa using hstop (Nat.succ_pos _)
      obtain ⟨found, hfound⟩ := hfind clickCount
      unfold revealLoop
      cases found with
      | false => simp [hfound]
      | true =>
        obtain ⟨button, hbutton⟩ := hbtn clickCount hfound
        have hnc : isClickable button = false := by
          unfold interactableAt at hno
          rw [hfound, hbutton] at hno
          exact hno
        simp [hfound, hbutton, hnc, loggedHarvest]
    | succ j =>
      obtain ⟨hfound, button, hbutton, hc⟩ := interactableAt_true page clickCount
        (by simpa using hj 0 (Nat.succ_pos _))
      obtain ⟨items, hitems⟩ := hev (clickCount + 1)
      have hrec := ih (clickCount + 1) j (allProducts ++ scrapeVisibleProducts items)
        (fun i hi => by
          have := hj (i + 1) (by omega)
          rwa [show clickCount + (i + 1) = clickCount + 1 + i by omega] at this)
        (fun hlt => by
          have := hstop (by omega)
          rwa [show clickCount + (j + 1) = clickCount + 1 + j by omega] at this)
      obtain ⟨h1, h2, h3⟩ := hrec
      have hmin : min (remaining + 1) (j + 1) = min remaining j + 1 := by omega
      unfold revealLoop
      simp only [hfound, hbutton, hc, hclick clickCount, hitems, if_true]
      rw [hmin, List.range'_succ, List.map_cons, List.flatten_cons,
        harvestAt_ok page _ items hitems]
      refine ⟨?_, ?_, ?_⟩
      · rw [h1, List.append_assoc]
      · simp [h2]
      · simp [loggedHarvest, h3]

theorem scrapeProductsFromPage_faultFree (page : ListingPage) (k : Nat) (hff : FaultFree page)
    (hk : ∀ i < k, interactableAt page i = true)
    (hstop : k < 4 → interactableAt page k = false) :
    (scrapeProductsFromPage page).2.count Effect.click = min 4 k ∧
      (scrapeProductsFromPage page).2.filterMap loggedHarvest =
        (List.range (min 4 k + 1)).map (harvestAt page) ∧
      (scrapeProductsFromPage page).1 =
        some ((List.range (min 4 k + 1)).map (harvestAt page)).flatten := by
  obtain ⟨h1, h2, h3⟩ := revealLoop_faultFree page hff 4 0 k (harvestAt page 0)
    (fun i hi => by simpa using hk i hi) (fun hlt => by simpa using hstop hlt)
  obtain ⟨hgoto, hev, _⟩ := hff
  obtain ⟨items, hitems⟩ := hev 0
  have hrange : List.range (min 4 k + 1) = 0 :: List.range' (0 + 1) (min 4 k) := by
    rw [List.range_eq_range', List.range'_succ]
  have hbody : scrapeBody page =
      ((revealLoop page 4 0 (harvestAt page 0)).1,
        Effect.goto (some buttonClickUrl) :: Effect.logInitial (harvestAt page 0) ::
          (revealLoop page 4 0 (harvestAt page 0)).2) := by
    unfold scrapeBody
    rw [hgoto]
    simp only [hitems, harvestAt_ok page 0 items hitems]
  unfold scrapeProductsFromPage
  rw [hbody, h1, hrange, List.map_cons, List.flatten_cons]
  refine ⟨?_, ?_, rfl⟩
  · simp [h2]
  · simp [loggedHarvest, h3]

/-- C5: on a fault-free page whose load-more control is present and
interactable at the first `k` reveal attempts and, when `k < 4`, not at the
next one, `scrapeProductsFromPage` clicks `min 4 k` times, logs exactly the
harvests `0, ..., min 4 k` in order, and returns their concatenation. -/
theorem scrapeProductsFromPage_activations (page : ListingPage) (k : Nat)
    (hff : FaultFree page) (hk : ∀ i < k, interactableAt page i = true)
    (hstop : k < 4 → interactableAt page k = false) :
    (scrapeProductsFromPage page).2.count Effect.click = min 4 k ∧
      (scrapeProductsFromPage page).2.filterMap loggedHarvest =
        (List.range (min 4 k + 1)).map (harvestAt page) ∧
      ((scrapeProductsFromPage page).2.filterMap loggedHarvest).length = min 4 k + 1 ∧
      (scrapeProductsFromPage page).1 =
        some ((List.range (min 4 k + 1)).map (harvestAt page)).flatten := by
  obtain ⟨h1, h2, h3⟩ := scrapeProductsFromPage_faultFree page k hff hk hstop
  refine ⟨h1, h2, ?_, h3⟩
  rw [h2, List.length_map, List.length_range]

theorem disabledAtSecondPage_faultFree : FaultFree disabledAtSecondPage :=
  ⟨rfl, fun _ => ⟨_, rfl⟩, fun _ => ⟨_, rfl⟩, fun _ _ => ⟨_, rfl⟩, fun _ => rfl⟩

theorem alwaysInteractablePage_faultFree : FaultFree alwaysInteractablePage :=
  ⟨rfl, fun _ => ⟨_, rfl⟩, fun _ => ⟨_, rfl⟩, fun _ _ => ⟨_, rfl⟩, fun _ => rfl⟩

/-- Witness of C5: a button that is not interactable at the second attempt
gives one click and two harvests. -/
theorem scrapeProductsFromPage_activations_witness :
    FaultFree disabledAtSecondPage ∧
    (∀ i < 1, interactableAt disabledAtSecondPage i = true) ∧
    (1 < 4 → interactableAt disabledAtSecondPage 1 = false) ∧
    (scrapeProductsFromPage disabledAtSecondPage).2.count Effect.click = min 4 1 ∧
    (scrapeProductsFromPage disabledAtSecondPage).2.filterMap loggedHarvest =
      (List.range (min 4 1 + 1)).map (harvestAt disabledAtSecondPage) ∧
    ((scrapeProductsFromPage disabledAtSecondPage).2.filterMap loggedHarvest).length =
      min 4 1 + 1 ∧
    (scrapeProductsFromPage disabledAtSecondPage).1 =
      some ((List.range (min 4 1 + 1)).map (harvestAt disabledAtSecondPage)).flatten :=
  have hk : ∀ i < 1, interactableAt disabledAtSecondPage i = true := by
    intro i hi
    have : i = 0 := by omega
    subst this
    decide
  have hstop : 1 < 4 → interactableAt disabledAtSecondPage 1 = false := fun _ => by decide
  ⟨disabledAtSecondPage_faultFree, hk, hstop,
    scrapeProductsFromPage_activations disabledAtSecondPage 1 disabledAtSecondPage_faultFree
      hk hstop⟩

/-- A button that is always interactable gives four clicks and five harvests. -/
theorem scrapeProductsFromPage_always_interactable (page : ListingPage) (hff : FaultFree page)
    (h : ∀ i, interactableAt page i = true) :
    (scrapeProductsFromPage page).2.count Effect.click = 4 ∧
      ((scrapeProductsFromPage page).2.filterMap loggedHarvest).length = 5 ∧
      (scrapeProductsFromPage page).1 =
        some ((List.range 5).map (harvestAt page)).flatten := by
  obtain ⟨h1, h2, h3⟩ := scrapeProductsFromPage_faultFree page 4 hff (fun i _ => h i)
    (fun hlt => absurd hlt (by omega))
  refine ⟨h1, ?_, h3⟩
  rw [h2, List.length_map, List.length_range]
  rfl

/-- The run on the example page whose button is disabled at the second
attempt: records `A` and `B`, one click. -/
theorem scrapeProductsFromPage_disabledAtSecondPage :
    scrapeProductsFromPage disabledAtSecondPage =
      (some (scrapeVisibleProducts [exampleItem 'A'] ++ scrapeVisibleProducts [exampleItem 'B']),
        [Effect.newPage, Effect.goto (some buttonClickUrl),
          Effect.logInitial (scrapeVisibleProducts [exampleItem 'A']),
          Effect.click, Effect.delay 2000,
          Effect.logNew (scrapeVisibleProducts [exampleItem 'B']),
          Effect.logNotClickable, Effect.close]) := by
  decide

/-! ## Faults in the listing extraction -/

theorem revealLoop_effects (page : ListingPage) (remaining clickCount : Nat)
    (allProducts : List ListingRecord) :
    ∀ e ∈ (revealLoop page remaining clickCount allProducts).2, isBodyEffect e = true := by
  induction remaining generalizing clickCount allProducts with
  | zero => simp [revealLoop]
  | succ remaining ih =>
    unfold revealLoop
    intro e he
    split at he
    · simp at he
    · simp at he
    · split at he
      · simp at he
      · split at he
        · split at he
          · simp at he
          · split at he
            · simp only [List.mem_cons, List.mem_singleton, List.not_mem_nil, or_false] at he
              rcases he with rfl | rfl <;> rfl
            · simp only [List.mem_cons] at he
              rcases he with rfl | rfl | rfl | he
              · rfl
              · rfl
              · rfl
              · exact ih _ _ e he
        · simp only [List.mem_singleton] at he
          subst he
          rfl

theorem scrapeBody_effects (page : ListingPage) :
    ∀ e ∈ (scrapeBody page).2, isBodyEffect e = true := by
  unfold scrapeBody
  intro e he
  split at he
  · simp at he
  · split at he
    · simp only [List.mem_singleton] at he
      subst he
      rfl
    · simp only [List.mem_cons] at he
      rcases he with rfl | rfl | he
      · rfl
      · rfl
      · exact revealLoop_effects page _ _ _ e he

theorem count_close_body (l : List Effect) (h : ∀ e ∈ l, isBodyEffect e = true) :
    l.count Effect.close = 0 := by
  rw [List.count_eq_zero]
  intro hmem
  exact absurd (h _ hmem) (by simp [isBodyEffect])

theorem interactableAt_iff (page : ListingPage) (i : Nat) :
    interactableAt page i = true ↔
      page.find i = Except.ok true ∧
        ∃ button, page.evalButton i = Except.ok button ∧ isClickable button = true := by
  constructor
  · exact interactableAt_true page i
  · rintro ⟨hf, button, hb, hc⟩
    unfold interactableAt
    rw [hf, hb]
    exact hc

/-- The attempts from `c` on, at most `r` of them, meet the fault `f`. -/
theorem exists_attempt_succ (page : ListingPage) (f : Fault) (r c : Nat) :
    (∃ j, j < r + 1 ∧ (∀ i, i < j → completesAt page (c + i)) ∧ faultsAt page (c + j) f) ↔
      faultsAt page c f ∨
        (completesAt page c ∧
          ∃ j, j < r ∧ (∀ i, i < j → completesAt page (c + 1 + i)) ∧
            faultsAt page (c + 1 + j) f) := by
  constructor
  · rintro ⟨j, hj, hall, hf⟩
    cases j with
    | zero => exact Or.inl hf
    | succ j =>
      right
      refine ⟨by simpa using hall 0 (Nat.succ_pos _), j, by omega, ?_, ?_⟩
      · intro i hi
        have := hall (i + 1) (by omega)
        rwa [show c + (i + 1) = c + 1 + i by omega] at this
      · rwa [show c + (j + 1) = c + 1 + j by omega] at hf
  · rintro (hf | ⟨hc, j, hj, hall, hf⟩)
    · exact ⟨0, Nat.succ_pos _, fun i hi => absurd hi (Nat.not_lt_zero _), hf⟩
    · refine ⟨j + 1, by omega, ?_, ?_⟩
      · intro i hi
        cases i with
        | zero => exact hc
        | succ i =>
          have := hall i (by omega)
          rwa [show c + 1 + i = c + (i + 1) by omega] at this
      · rwa [show c + 1 + j = c + (j + 1) by omega] at hf

theorem revealLoop_fault_iff (page : ListingPage) (f : Fault) (remaining clickCount : Nat)
    (allProducts : List ListingRecord) :
    (revealLoop page remaining clickCount allProducts).1 = Except.error f ↔
      ∃ j, j < remaining ∧ (∀ i, i < j → completesAt page (clickCount + i)) ∧
        faultsAt page (clickCount + j) f := by
  induction remaining generalizing clickCount allProducts with
  | zero => simp [revealLoop]
  | succ remaining ih =>
    rw [exists_attempt_succ]
    unfold revealLoop
    cases hfind : page.find clickCount with
    | error g =>
      simp [faultsAt, completesAt, interactableAt, hfind]
    | ok found =>
      cases found with
      | false => simp [faultsAt, completesAt, interactableAt, hfind]
      | true =>
        cases hbutton : page.evalButton clickCount with
        | error g => simp [faultsAt, completesAt, interactableAt, hfind, hbutton]
        | ok button =>
          cases hc : isClickable button with
          | false => simp [faultsAt, completesAt, interactableAt, hfind, hbutton, hc]
          | true =>
            cases hclick : page.click clickCount with
            | error g =>
              simp [faultsAt, completesAt, interactableAt, hfind, hbutton, hc, hclick]
            | ok u =>
              cases hev : page.evaluate (clickCount + 1) with
              | error g =>
                simp [faultsAt, completesAt, interactableAt, hfind, hbutton, hc, hclick, hev]
              | ok items =>
                simp only [hc, if_true]
                rw [ih]
                simp [faultsAt, completesAt, interactableAt, hfind, hbutton, hc, hclick, hev]

theorem scrapeBody_fault_iff (page : ListingPage) (f : Fault) :
    (scrapeBody page).1 = Except.error f ↔ FaultOccurs page f := by
  unfold scrapeBody FaultOccurs
  cases hgoto : page.goto with
  | error g => simp
  | ok u =>
    cases hev : page.evaluate 0 with
    | error g => simp
    | ok items =>
      simp only [revealLoop_fault_iff, Nat.zero_add]
      simp

theorem scrapeProductsFromPage_of_body (page : ListingPage) :
    scrapeProductsFromPage page =
      match (scrapeBody page).1 with
      | Except.ok allProducts =>
        (some allProducts, Effect.newPage :: (scrapeBody page).2 ++ [Effect.close])
      | Except.error f =>
        (none, Effect.newPage :: (scrapeBody page).2 ++ [Effect.logError f, Effect.close]) := by
  unfold scrapeProductsFromPage
  rcases scrapeBody page with ⟨result, actions⟩
  cases result <;> rfl

/-- C6 fails as stated: on a page whose initial harvest yields the record `A`
and whose first click faults, and on a page whose third harvest query faults
after the records `A` and `B` were harvested, the fault is caught and the
function returns `undefined`, not the records harvested before the fault. -/
theorem scrapeProductsFromPage_fault_loses_harvest :
    scrapeProductsFromPage clickFaultPage =
      (none,
        [Effect.newPage, Effect.goto (some buttonClickUrl),
          Effect.logInitial (scrapeVisibleProducts [exampleItem 'A']),
          Effect.logError Fault.click, Effect.close]) ∧
    (scrapeProductsFromPage clickFaultPage).1 ≠
      some (scrapeVisibleProducts [exampleItem 'A']) ∧
    scrapeProductsFromPage harvestFaultPage =
      (none,
        [Effect.newPage, Effect.goto (some buttonClickUrl),
          Effect.logInitial (scrapeVisibleProducts [exampleItem 'A']),
          Effect.click, Effect.delay 2000,
          Effect.logNew (scrapeVisibleProducts [exampleItem 'B']),
          Effect.click, Effect.delay 2000,
          Effect.logError Fault.query, Effect.close]) ∧
    (scrapeProductsFromPage harvestFaultPage).1 ≠
      some (scrapeVisibleProducts [exampleItem 'A'] ++
        scrapeVisibleProducts [exampleItem 'B']) := by
  decide

/-- C6, amended: when a fault occurs inside `scrapeProductsFromPage` (in the
navigation, in a harvest query, in the lookup or the `$eval` of the button, or
in the click), the fault is caught and logged and the function returns
`undefined`, whatever had been harvested before; `undefined` is returned only
after such a fault; on every path the page is closed exactly once, as the last
action. -/
theorem scrapeProductsFromPage_fault_returns_undefined (page : ListingPage) :
    (∀ f, FaultOccurs page f →
      (scrapeProductsFromPage page).1 = none ∧
        Effect.logError f ∈ (scrapeProductsFromPage page).2) ∧
    ((scrapeProductsFromPage page).1 = none → ∃ f, FaultOccurs page f) ∧
    ((scrapeProductsFromPage page).1 = none ↔
      ∃ f, Effect.logError f ∈ (scrapeProductsFromPage page).2) ∧
    (scrapeProductsFromPage page).2.count Effect.close = 1 ∧
    (scrapeProductsFromPage page).2.getLast? = some Effect.close := by
  have hbody := scrapeBody_effects page
  have hclose := count_close_body _ hbody
  have hfault := scrapeBody_fault_iff page
  rw [scrapeProductsFromPage_of_body]
  cases hres : (scrapeBody page).1 with
  | error g =>
    rw [hres] at hfault
    refine ⟨?_, fun _ => ⟨g, (hfault g).mp rfl⟩, ⟨fun _ => ⟨g, by simp⟩, fun _ => rfl⟩, ?_, ?_⟩
    · intro f hf
      have hfg : g = f := by
        have := (hfault f).mpr hf
        injection this
      subst hfg
      exact ⟨rfl, by simp⟩
    · simp [List.count_cons, List.count_append, hclose]
    · simp [List.getLast?_cons, List.getLast?_append]
  | ok allProducts =>
    rw [hres] at hfault
    refine ⟨?_, fun h => absurd h (by simp), ⟨fun h => absurd h (by simp), ?_⟩, ?_, ?_⟩
    · intro f hf
      exact absurd ((hfault f).mpr hf) (by simp)
    · rintro ⟨f, hf⟩
      simp only [List.mem_cons, List.mem_append, List.mem_singleton] at hf
      rcases hf with (hf | hf) | hf
      · exact absurd hf (by simp)
      · exact absurd (hbody _ hf) (by simp [isBodyEffect])
      · exact absurd hf (by simp)
    · simp [List.count_cons, List.count_append, hclose]
    · simp [List.getLast?_cons, List.getLast?_append]

theorem faultAfterHarvestPage_faultOccurs : FaultOccurs faultAfterHarvestPage Fault.query :=
  Or.inr (Or.inr ⟨rfl, ⟨_, rfl⟩, 0, by decide, fun i hi => absurd hi (Nat.not_lt_zero _),
    Or.inl rfl⟩)

/-- Witness of the amended C6: on the page whose lookup of the button faults
after the initial harvest, the fault occurs at the first reveal attempt and
the function returns `undefined`. -/
theorem scrapeProductsFromPage_fault_returns_undefined_witness :
    FaultOccurs faultAfterHarvestPage Fault.query ∧
    (scrapeProductsFromPage faultAfterHarvestPage).1 = none ∧
    Effect.logError Fault.query ∈ (scrapeProductsFromPage faultAfterHarvestPage).2 :=
  ⟨faultAfterHarvestPage_faultOccurs,
    (scrapeProductsFromPage_fault_returns_undefined faultAfterHarvestPage).1 Fault.query
      faultAfterHarvestPage_faultOccurs⟩

/-- On the page whose third harvest query faults, the fault occurs at the
second reveal attempt, after the first attempt ran to its end. -/
theorem harvestFaultPage_faultOccurs : FaultOccurs harvestFaultPage Fault.query := by
  refine Or.inr (Or.inr ⟨rfl, ⟨_, rfl⟩, 1, by decide, ?_, ?_⟩)
  · intro i hi
    have : i = 0 := by omega
    subst this
    exact ⟨by decide, rfl, _, rfl⟩
  · exact Or.inr (Or.inr (Or.inr ⟨by decide, rfl, rfl⟩))

/-! ## `Promise.all` keeps the order of its input -/

theorem promiseAllSettle_fulfilled {α : Type} (vs : List α) (later : List Nat)
    (values : List (Option α)) (hnodup : later.Nodup) (hlt : ∀ i ∈ later, i < vs.length)
    (hpos : later ≠ []) (hlen : values.length = vs.length)
    (hdone : ∀ i, i < vs.length → i ∉ later → values.get? i = (vs.get? i).map some) :
    promiseAllSettle (vs.map Except.ok) later values later.length = some (Except.ok vs) := by
  induction later generalizing values with
  | nil => exact absurd rfl hpos
  | cons i rest ih =>
    have hi : i < vs.length := hlt i (List.mem_cons_self _ _)
    have hout : (vs.map (Except.ok : α → Except Fault α)).get? i =
        some (Except.ok (vs.get ⟨i, hi⟩)) := by
      simp only [List.get?_eq_getElem?, List.getElem?_map, List.getElem?_eq_getElem hi,
        Option.map_some', List.get_eq_getElem]
    rw [List.nodup_cons] at hnodup
    have hset : ∀ j, j < vs.length → j ∉ rest →
        (values.set i (some (vs.get ⟨i, hi⟩))).get? j = (vs.get? j).map some := by
      intro j hj hjr
      by_cases hji : j = i
      · subst hji
        simp only [List.get?_eq_getElem?, List.getElem?_set_self (by omega : j < values.length),
          List.getElem?_eq_getElem hj, Option.map_some', List.get_eq_getElem]
      · have hne : i ≠ j := fun h => hji h.symm
        rw [List.get?_eq_getElem?, List.getElem?_set_ne hne, ← List.get?_eq_getElem?]
        apply hdone j hj
        intro hmem
        rcases List.mem_cons.mp hmem with h | h
        · exact hji h
        · exact hjr h
    unfold promiseAllSettle
    simp only [hout, List.length_cons, Nat.add_sub_cancel]
    by_cases hrest : rest = []
    · subst hrest
      simp only [List.length_nil, if_true]
      have hall : values.set i (some (vs.get ⟨i, hi⟩)) = vs.map some := by
        apply List.ext_get?
        intro j
        by_cases hj : j < vs.length
        · rw [hset j hj (List.not_mem_nil _)]
          simp only [List.get?_eq_getElem?, List.getElem?_map]
        · rw [List.get?_eq_none.mpr (by rw [List.length_set]; omega),
            List.get?_eq_none.mpr (by rw [List.length_map]; omega)]
      rw [hall]
      simp [List.filterMap_map]
    · have hne : rest.length ≠ 0 := fun h => hrest (List.length_eq_zero.mp h)
      rw [if_neg hne]
      exact ih _ hnodup.2 (fun j hj => hlt j (List.mem_cons_of_mem _ hj)) hrest
        (by rw [List.length_set]; exact hlen) hset

theorem promiseAll_fulfilled {α : Type} (vs : List α) (completion : List Nat)
    (hperm : completion.Perm (List.range vs.length)) :
    promiseAll completion (vs.map Except.ok) = some (Except.ok vs) := by
  unfold promiseAll
  cases vs with
  | nil => rfl
  | cons v vs =>
    rw [if_neg (by simp)]
    have hlen : completion.length = (v :: vs).length := by
      rw [hperm.length_eq, List.length_range]
    rw [List.length_map, ← hlen]
    apply promiseAllSettle_fulfilled
    · exact hperm.nodup_iff.mpr (List.nodup_range _)
    · intro i hi
      exact List.mem_range.mp (hperm.subset hi)
    · intro h
      rw [h] at hlen
      simp at hlen
    · rw [List.length_replicate]
      exact hlen
    · intro i hi hnot
      exact absurd (hperm.symm.subset (List.mem_range.mpr hi)) hnot

/-! ## Detail fetch: page life cycle, order of the details, default filling -/

theorem fetchProductDetails_ok (browser : Browser) (link : Option JSString)
    (doc : DetailDocument) (hgoto : browser.goto link = Except.ok ())
    (heval : browser.evaluate link = Except.ok doc) :
    fetchProductDetails browser link =
      (Except.ok (detailProjection doc), [Effect.newPage, Effect.goto link, Effect.close]) := by
  unfold fetchProductDetails
  rw [hgoto]
  simp only [heval]

/-- C8, the defect: when navigation faults the page that was opened is never
closed, and likewise when the projection faults after a successful navigation;
only the fault-free path closes the page. -/
theorem fetchProductDetails_fault_leaves_page_open :
    fetchProductDetails unreachableBrowser (some "link".toList) =
      (Except.error Fault.navigation, [Effect.newPage]) ∧
    fetchProductDetails brokenQueryBrowser (some "link".toList) =
      (Except.error Fault.query, [Effect.newPage, Effect.goto (some "link".toList)]) ∧
    Effect.close ∉ (fetchProductDetails unreachableBrowser (some "link".toList)).2 ∧
    Effect.close ∉ (fetchProductDetails brokenQueryBrowser (some "link".toList)).2 := by
  decide

/-- The page is closed by `fetchProductDetails` exactly when no fault occurs. -/
theorem fetchProductDetails_close_iff (browser : Browser) (link : Option JSString) :
    Effect.close ∈ (fetchProductDetails browser link).2 ↔
      ∃ d, (fetchProductDetails browser link).1 = Except.ok d := by
  unfold fetchProductDetails
  cases browser.goto link with
  | error f => simp
  | ok u =>
    cases browser.evaluate link with
    | error f => simp
    | ok doc => simp

/-- C9: when every fetch succeeds, for every order of completion of the
fetches `getProductDetails` is fulfilled with the detail records in the order
of the input: the `i`-th record is the projection of the document served for
the link of the `i`-th product. -/
theorem getProductDetails_preserves_order (browser : Browser) (completion : List Nat)
    (products : List Product) (docs : Option JSString → DetailDocument)
    (hperm : completion.Perm (List.range products.length))
    (hok : ∀ p ∈ products, browser.goto p.link = Except.ok () ∧
      browser.evaluate p.link = Except.ok (docs p.link)) :
    getProductDetails browser completion products =
        some (Except.ok (products.map (fun p => detailProjection (docs p.link)))) ∧
      (products.map (fun p => detailProjection (docs p.link))).length = products.length := by
  refine ⟨?_, List.length_map _ _⟩
  unfold getProductDetails
  have hmap : products.map (fun product => (fetchProductDetails browser product.link).1) =
      (products.map (fun p => detailProjection (docs p.link))).map Except.ok := by
    rw [List.map_map]
    apply List.map_congr_left
    intro p hp
    obtain ⟨hg, he⟩ := hok p hp
    rw [fetchProductDetails_ok browser p.link _ hg he]
    rfl
  rw [hmap]
  apply promiseAll_fulfilled
  rw [List.length_map]
  exact hperm

/-- Witness of C9: three products whose fetches complete in the order third,
first, second. -/
theorem getProductDetails_preserves_order_witness :
    [2, 0, 1].Perm (List.range [linkedProduct "p0", linkedProduct "p1",
      linkedProduct "p2"].length) ∧
    (∀ p ∈ [linkedProduct "p0", linkedProduct "p1", linkedProduct "p2"],
      echoBrowser.goto p.link = Except.ok () ∧
      echoBrowser.evaluate p.link = Except.ok (echoDoc p.link)) ∧
    getProductDetails echoBrowser [2, 0, 1]
        [linkedProduct "p0", linkedProduct "p1", linkedProduct "p2"] =
      some (Except.ok ([linkedProduct "p0", linkedProduct "p1", linkedProduct "p2"].map
        (fun p => detailProjection (echoDoc p.link)))) ∧
    ([linkedProduct "p0", linkedProduct "p1", linkedProduct "p2"].map
      (fun p => detailProjection (echoDoc p.link))).length =
      [linkedProduct "p0", linkedProduct "p1", linkedProduct "p2"].length :=
  have hperm : [2, 0, 1].Perm (List.range [linkedProduct "p0", linkedProduct "p1",
      linkedProduct "p2"].length) := by decide
  have hok : ∀ p ∈ [linkedProduct "p0", linkedProduct "p1", linkedProduct "p2"],
      echoBrowser.goto p.link = Except.ok () ∧
      echoBrowser.evaluate p.link = Except.ok (echoDoc p.link) := fun _ _ => ⟨rfl, rfl⟩
  ⟨hperm, hok, getProductDetails_preserves_order echoBrowser [2, 0, 1] _ echoDoc hperm hok⟩

/-- The three details of the example come back in input order although the
third fetch completed first. -/
theorem getProductDetails_example :
    getProductDetails echoBrowser [2, 0, 1]
        [linkedProduct "p0", linkedProduct "p1", linkedProduct "p2"] =
      some (Except.ok
        [detailProjection (echoDoc (some "p0".toList)),
          detailProjection (echoDoc (some "p1".toList)),
          detailProjection (echoDoc (some "p2".toList))]) := by
  decide

theorem orNA_filled (element : Option JSString) : FieldFilled element (orNA element) := by
  refine ⟨?_, ?_, ?_⟩
  · rintro rfl
    rfl
  · rintro rfl
    rfl
  · rintro text htext rfl
    cases text with
    | nil => exact absurd rfl htext
    | cons c cs => rfl

/-- C10 fails as stated: the SKU element of `emptySkuDoc` is present and its
text is empty, and the `sku` field is the sentinel, not that text. -/
theorem detailProjection_empty_text_is_sentinel :
    emptySkuDoc.sku = some [] ∧
    (detailProjection emptySkuDoc).sku = notAvailable ∧
    (detailProjection emptySkuDoc).sku ≠ [] := by
  decide

/-- C10, amended: each of the five fields is filled from its own element alone:
the sentinel `"N/A"` when the element is absent or its text is empty, the text
of the element otherwise. For the page without the description element the
description is `"N/A"` and the four other fields carry the texts. -/
theorem detailProjection_defaults :
    (∀ doc : DetailDocument,
      FieldFilled doc.productTitle (detailProjection doc).title ∧
      FieldFilled doc.price (detailProjection doc).price ∧
      FieldFilled doc.shortDescription (detailProjection doc).description ∧
      FieldFilled doc.sku (detailProjection doc).sku ∧
      FieldFilled doc.postedIn (detailProjection doc).category) ∧
    detailProjection missingDescriptionDoc =
      { title := "Mug".toList, price := "$12.50".toList, description := "N/A".toList,
        sku := "MUG-1".toList, category := "Category: Kitchen".toList } :=
  ⟨fun doc => ⟨orNA_filled _, orNA_filled _, orNA_filled _, orNA_filled _, orNA_filled _⟩,
    by decide⟩

/-! ## The rounding and parsing model on examples -/

/-- The halvings counted by `excessBits` leave a quotient below `2^53`. -/
theorem excessBits_lt (fuel q : Nat) (h : q ≤ fuel) : q / 2 ^ excessBits fuel q < 2 ^ 53 := by
  induction fuel generalizing q with
  | zero =>
    have : q = 0 := by omega
    subst this
    simp [excessBits]
  | succ fuel ih =>
    unfold excessBits
    split_ifs with hlt
    · simpa using hlt
    · have h2 : (2 : Nat) ≤ 2 ^ 53 := by norm_num
      have := ih (q / 2) (by omega)
      rwa [show 2 ^ (excessBits fuel (q / 2) + 1) = 2 * 2 ^ excessBits fuel (q / 2) by
        rw [pow_succ, mul_comm], ← Nat.div_div_eq_div_mul]

/-- For a quotient of at least `2^53` they leave a full 53-bit significand. -/
theorem excessBits_ge (fuel q : Nat) (h : 2 ^ 53 ≤ q) (hf : q ≤ fuel) :
    2 ^ 52 ≤ q / 2 ^ excessBits fuel q := by
  induction fuel generalizing q with
  | zero =>
    have h2 : (0 : Nat) < 2 ^ 53 := by norm_num
    omega
  | succ fuel ih =>
    unfold excessBits
    rw [if_neg (by omega), show 2 ^ (excessBits fuel (q / 2) + 1) =
      2 * 2 ^ excessBits fuel (q / 2) by rw [pow_succ, mul_comm], ← Nat.div_div_eq_div_mul]
    have h52 : (2 : Nat) ^ 53 = 2 * 2 ^ 52 := by norm_num
    by_cases hq : q / 2 < 2 ^ 53
    · have he : excessBits fuel (q / 2) = 0 := by
        cases fuel with
        | zero => rfl
        | succ fuel => unfold excessBits; rw [if_pos hq]
      rw [he]
      simp only [pow_zero, Nat.div_one]
      omega
    · exact ih (q / 2) (by omega) (by omega)

/-- Values of `parseFloat` on texts that reach it: `10`, `0.1` (the binary64
value `0x1999999999999A * 2^-56`), `-0`, the empty text, a text with two dots,
a lone minus sign, and a literal that ties between two binary64 values. -/
theorem parseFloat_examples :
    parseFloat "10".toList = JSNumber.fin false (10 * 2 ^ 1074) ∧
    parseFloat "0.1".toList = JSNumber.fin false (0x1999999999999A * 2 ^ 1018) ∧
    parseFloat "-0".toList = JSNumber.fin true 0 ∧
    parseFloat "".toList = JSNumber.nan ∧
    parseFloat "1.5.2".toList = JSNumber.fin false (3 * 2 ^ 1073) ∧
    parseFloat "-".toList = JSNumber.nan ∧
    parseFloat "9007199254740993".toList = JSNumber.fin false (9007199254740992 * 2 ^ 1074) ∧
    parseFloat (stripNonNumeric "$1,299.50".toList) = JSNumber.fin false (2599 * 2 ^ 1073) ∧
    parseFloat (stripNonNumeric "N/A".toList) = JSNumber.nan := by
  decide!

/-- A text of four hundred digits overflows to `Infinity`. -/
theorem parseFloat_overflow :
    parseFloat (List.replicate 400 '9') = JSNumber.inf false := by
  decide!

end Scraper
